import Mathlib

/-!
# Verification of the yezichak term-finding pipeline (`Translator`)

A shallow embedding of the parts of the `Translator` class that the claims
C1–C10 concern: the data model for term dictionary entries, the
deduplication-by-id loop of `_findTermsInternal`, inflection-hypothesis
merging, entry construction (`_createTermDictionaryEntryFromDatabaseEntry`,
`_createGroupedDictionaryEntry`), tag merging, sort-frequency computation,
the two sort comparators, the text-variant generator, and the metadata phase
of `findTerms`.

JavaScript modelling conventions:
* JS numbers that hold integral data (scores, priorities, frequencies,
  ids, indices) are `Int` or `Nat`.
* JS `Array.prototype.sort` is stable; it is modelled by
  `List.insertionSort`, which is stable in the same sense.
* JS `Map` (insertion-ordered) is modelled by an association list.
* JS string `.length` is modelled by `String.length`.
* `Intl.Collator('en-US').compare` is an external total preorder on
  strings; it is passed in as an explicit `collate : String → String → Int`
  parameter wherever the source uses `this._stringComparer`.
-/

namespace Yezichak

/-- An inflection hypothesis `{source, inflections}` as carried on
deinflections and term dictionary entries. `source` is one of
`"algorithm"`, `"dictionary"`, `"both"`. -/
structure InflectionHypothesis where
  source : String
  inflections : List String
deriving DecidableEq, Repr

/-- A tag group `{dictionary, tagNames}` (source `_createTagGroup`). -/
structure TagGroup where
  dictionary : String
  tagNames : List String
deriving DecidableEq, Repr

/-- An expanded tag record (source `_createTag`). -/
structure Tag where
  name : String
  category : String
  order : Int
  score : Int
  content : List String
  dictionaries : List String
  redundant : Bool
deriving DecidableEq, Repr

/-- A source record (source `_createSource`). -/
structure TermSource where
  originalText : String
  transformedText : String
  deinflectedText : String
  matchType : String
  matchSource : String
  isPrimary : Bool
deriving DecidableEq, Repr

/-- A headword (source `_createTermHeadword`).  The tag payload type `τ` is
`TagGroup` before tag expansion and `Tag` after it. -/
structure TermHeadword (τ : Type) where
  index : Nat
  term : String
  reading : String
  sources : List TermSource
  tags : List τ
  wordClasses : List String
deriving DecidableEq, Repr

/-- A term definition (source `_createTermDefinition`). -/
structure TermDefinition (τ : Type) where
  index : Nat
  headwordIndices : List Nat
  dictionary : String
  dictionaryIndex : Nat
  dictionaryPriority : Int
  id : Nat
  score : Int
  frequencyOrder : Int
  sequences : List Int
  isPrimary : Bool
  tags : List τ
  entries : List String
deriving DecidableEq, Repr

/-- A pitch record attached to a pronunciation (source `_addTermMeta`,
`pitch` branch). -/
structure TermPitch (τ : Type) where
  position : Int
  nasalPositions : List Nat
  devoicePositions : List Nat
  tags : List τ
deriving DecidableEq, Repr

/-- A phonetic transcription record (source `_addTermMeta`, `ipa` branch). -/
structure TermPhoneticTranscription (τ : Type) where
  ipa : String
  tags : List τ
deriving DecidableEq, Repr

/-- A pronunciation record (source `_createTermPronunciation`). -/
structure TermPronunciation (τ : Type) where
  index : Nat
  headwordIndex : Nat
  dictionary : String
  dictionaryIndex : Nat
  dictionaryPriority : Int
  pitches : List (TermPitch τ)
  phoneticTranscriptions : List (TermPhoneticTranscription τ)
deriving DecidableEq, Repr

/-- A frequency record (source `_createTermFrequency`). -/
structure TermFrequency where
  index : Nat
  headwordIndex : Nat
  dictionary : String
  dictionaryIndex : Nat
  dictionaryPriority : Int
  hasReading : Bool
  frequency : Int
  displayValue : Option String
  displayValueParsed : Bool
deriving DecidableEq, Repr

/-- A term dictionary entry (source `_createTermDictionaryEntry`; the
constant `type: 'term'` field is omitted). -/
structure TermDictionaryEntry (τ : Type) where
  isPrimary : Bool
  inflectionHypotheses : List InflectionHypothesis
  score : Int
  frequencyOrder : Int
  dictionaryIndex : Nat
  dictionaryPriority : Int
  sourceTermExactMatchCount : Nat
  maxTransformedTextLength : Nat
  headwords : List (TermHeadword τ)
  definitions : List (TermDefinition τ)
  pronunciations : List (TermPronunciation τ)
  frequencies : List TermFrequency
deriving DecidableEq, Repr

/-- The per-dictionary details held in `enabledDictionaryMap`. -/
structure DictionaryInfo where
  index : Nat
  priority : Int
  allowSecondarySearches : Bool
deriving DecidableEq, Repr

/-- A database entry as returned by `findTermsBulk` (spec §3 / §6; fields
not used by the modelled code paths are omitted, `definitions` is the
opaque content list). -/
structure DatabaseEntry where
  id : Nat
  index : Nat
  term : String
  reading : String
  definitionTags : List String
  termTags : List String
  rules : List String
  score : Int
  dictionary : String
  sequence : Int
  matchType : String
  matchSource : String
  definitions : List String
deriving DecidableEq, Repr

/-- A deinflection record (source `_createDeinflection`, plus the
`isDictionaryDeinflection` flag set by `_getDictionaryDeinflections`). -/
structure Deinflection where
  originalText : String
  transformedText : String
  deinflectedText : String
  rules : Int
  inflectionHypotheses : List InflectionHypothesis
  databaseEntries : List DatabaseEntry
  isDictionaryDeinflection : Bool
deriving DecidableEq, Repr

/-! ## Generic helpers -/

/-- Replace the first element satisfying `p` by its image under `f`
(functional counterpart of a JS in-place mutation of the element found by
`Array.prototype.find`). -/
def updateFirst {α : Type} (p : α → Bool) (f : α → α) : List α → List α
  | [] => []
  | x :: xs => if p x then f x :: xs else x :: updateFirst p f xs

/-- Source `_addUniqueSimple`: push each new item not already contained. -/
def addUniqueSimple {α : Type} [DecidableEq α] (list : List α) (newItems : List α) : List α :=
  newItems.foldl (fun l item => if l.contains item then l else l ++ [item]) list

/-- Source `_getDictionaryOrder`; the enabled-dictionary map is an
insertion-ordered association list. -/
def getDictionaryOrder (dictionary : String) (enabledDictionaryMap : List (String × DictionaryInfo)) : Nat × Int :=
  match (enabledDictionaryMap.find? (fun p => p.1 == dictionary)).map Prod.snd with
  | some info => (info.index, info.priority)
  | none => (enabledDictionaryMap.length, 0)

/-! ## Entry construction (`_createTermDictionaryEntryFromDatabaseEntry`) -/

/-- Source `_createSource`. -/
def createSource (originalText transformedText deinflectedText matchType matchSource : String) (isPrimary : Bool) : TermSource :=
  { originalText, transformedText, deinflectedText, matchType, matchSource, isPrimary }

/-- Source `_createTermHeadword`. -/
def createTermHeadword {τ : Type} (index : Nat) (term reading : String) (sources : List TermSource) (tags : List τ) (wordClasses : List String) : TermHeadword τ :=
  { index, term, reading, sources, tags, wordClasses }

/-- Source `_createTermDefinition` (`frequencyOrder` starts at 0). -/
def createTermDefinition {τ : Type} (index : Nat) (headwordIndices : List Nat) (dictionary : String) (dictionaryIndex : Nat) (dictionaryPriority : Int) (id : Nat) (score : Int) (sequences : List Int) (isPrimary : Bool) (tags : List τ) (entries : List String) : TermDefinition τ :=
  { index, headwordIndices, dictionary, dictionaryIndex, dictionaryPriority, id, score,
    frequencyOrder := 0, sequences, isPrimary, tags, entries }

/-- Source `_createTermDictionaryEntry` (`frequencyOrder` starts at 0,
`pronunciations` and `frequencies` start empty). -/
def createTermDictionaryEntry {τ : Type} (isPrimary : Bool) (inflectionHypotheses : List InflectionHypothesis) (score : Int) (dictionaryIndex : Nat) (dictionaryPriority : Int) (sourceTermExactMatchCount : Nat) (maxTransformedTextLength : Nat) (headwords : List (TermHeadword τ)) (definitions : List (TermDefinition τ)) : TermDictionaryEntry τ :=
  { isPrimary, inflectionHypotheses, score, frequencyOrder := 0, dictionaryIndex,
    dictionaryPriority, sourceTermExactMatchCount, maxTransformedTextLength,
    headwords, definitions, pronunciations := [], frequencies := [] }

/-- Source `_createTermDictionaryEntryFromDatabaseEntry`: one headword, one
definition, `sourceTermExactMatchCount` is 1 exactly when the entry is
primary and the deinflected text equals the database term. -/
def createTermDictionaryEntryFromDatabaseEntry (databaseEntry : DatabaseEntry) (originalText transformedText deinflectedText : String) (reasons : List InflectionHypothesis) (isPrimary : Bool) (enabledDictionaryMap : List (String × DictionaryInfo)) : TermDictionaryEntry TagGroup :=
  let reading := if databaseEntry.reading.length > 0 then databaseEntry.reading else databaseEntry.term
  let order := getDictionaryOrder databaseEntry.dictionary enabledDictionaryMap
  let sourceTermExactMatchCount := if isPrimary ∧ deinflectedText = databaseEntry.term then 1 else 0
  let source := createSource originalText transformedText deinflectedText databaseEntry.matchType databaseEntry.matchSource isPrimary
  let maxTransformedTextLength := transformedText.length
  let sequence := if databaseEntry.sequence ≥ 0 then databaseEntry.sequence else -1
  let headwordTagGroups : List TagGroup :=
    if databaseEntry.termTags.length > 0 then [⟨databaseEntry.dictionary, databaseEntry.termTags⟩] else []
  let definitionTagGroups : List TagGroup :=
    if databaseEntry.definitionTags.length > 0 then [⟨databaseEntry.dictionary, databaseEntry.definitionTags⟩] else []
  createTermDictionaryEntry
    isPrimary
    reasons
    databaseEntry.score
    order.1
    order.2
    sourceTermExactMatchCount
    maxTransformedTextLength
    [createTermHeadword 0 databaseEntry.term reading [source] headwordTagGroups databaseEntry.rules]
    [createTermDefinition 0 [0] databaseEntry.dictionary order.1 order.2 databaseEntry.id databaseEntry.score [sequence] isPrimary definitionTagGroups databaseEntry.definitions]

/-! ## Inflection-hypothesis equality and merging (`_findTermsInternal`) -/

/-- The contents of `new Set(l)` for a list of strings: first occurrences
in order. -/
def jsSetOfList (l : List String) : List String :=
  l.foldl (fun acc x => if acc.contains x then acc else acc ++ [x]) []

/-- Source `_areInflectionHyphothesesEqual` (the typo is the source's):
converts both inflection lists to `Set`s and tests that the sets have equal
size and that every member of the first is a member of the second. -/
def areInflectionHyphothesesEqual (hypotheses1 hypotheses2 : List String) : Bool :=
  let set1 := jsSetOfList hypotheses1
  let set2 := jsSetOfList hypotheses2
  set1.length == set2.length && set1.all (fun x => set2.contains x)

/-- The `inflectionHypotheses.forEach` merge body of `_findTermsInternal`,
parameterised by the hypothesis-equality test `eq` used to find a duplicate.
For each incoming hypothesis: if no hypothesis of the existing list has
`eq`-equal inflections it is collected for appending; otherwise, if the
first such duplicate's `source` differs, that duplicate's `source` becomes
`"both"`.  The result is the updated existing list followed by the
collected new hypotheses. -/
def mergeInflectionHypothesesWith (eq : List String → List String → Bool) (existingHypotheses incoming : List InflectionHypothesis) : List InflectionHypothesis :=
  let step := fun (st : List InflectionHypothesis × List InflectionHypothesis) (h : InflectionHypothesis) =>
    match st.1.find? (fun hypothesis => eq hypothesis.inflections h.inflections) with
    | none => (st.1, st.2 ++ [h])
    | some duplicate =>
      if duplicate.source ≠ h.source then
        (updateFirst (fun hypothesis => eq hypothesis.inflections h.inflections)
          (fun hypothesis => { hypothesis with source := "both" }) st.1, st.2)
      else st
  let final := incoming.foldl step (existingHypotheses, [])
  final.1 ++ final.2

/-- The merge as the source performs it, with `_areInflectionHyphothesesEqual`
as the duplicate test. -/
def mergeInflectionHypotheses (existingHypotheses incoming : List InflectionHypothesis) : List InflectionHypothesis :=
  mergeInflectionHypothesesWith areInflectionHyphothesesEqual existingHypotheses incoming

/-! ## The deduplication-by-id loop of `_findTermsInternal` -/

/-- The running state of the `_findTermsInternal` loop. -/
structure FindTermsState where
  originalTextLength : Nat
  dictionaryEntries : List (TermDictionaryEntry TagGroup)
  ids : List Nat
deriving DecidableEq, Repr

/-- The body of the inner `for (const databaseEntry of databaseEntries)`
loop of `_findTermsInternal`: deduplicate by id; on a repeated id, merge
inflection hypotheses when the new transformed text is at least as long as
the existing entry's first source's, otherwise discard; on a first
sighting, skip `non-lemma` entries and append a primary entry. -/
def processDatabaseEntry (enabledDictionaryMap : List (String × DictionaryInfo)) (d : Deinflection) (st : FindTermsState) (databaseEntry : DatabaseEntry) : FindTermsState :=
  let hasId := fun (entry : TermDictionaryEntry TagGroup) =>
    entry.definitions.any (fun definition => definition.id == databaseEntry.id)
  if st.ids.contains databaseEntry.id then
    match st.dictionaryEntries.find? hasId with
    | none => st
    | some existingEntry =>
      let existingLength := (((existingEntry.headwords.head?).bind (fun hw => hw.sources.head?)).map (fun s => s.transformedText.length)).getD 0
      if d.transformedText.length ≥ existingLength then
        { st with
          dictionaryEntries := updateFirst hasId
            (fun entry => { entry with inflectionHypotheses := mergeInflectionHypotheses entry.inflectionHypotheses d.inflectionHypotheses })
            st.dictionaryEntries }
      else st
  else if databaseEntry.definitionTags.contains "non-lemma" then st
  else
    { st with
      dictionaryEntries := st.dictionaryEntries ++
        [createTermDictionaryEntryFromDatabaseEntry databaseEntry d.originalText d.transformedText d.deinflectedText d.inflectionHypotheses true enabledDictionaryMap],
      ids := st.ids ++ [databaseEntry.id] }

/-- The body of the outer `for (const {...} of deinflections)` loop of
`_findTermsInternal`: deinflections without database hits are skipped;
non-dictionary-deinflection candidates raise `originalTextLength`. -/
def processDeinflection (enabledDictionaryMap : List (String × DictionaryInfo)) (st : FindTermsState) (d : Deinflection) : FindTermsState :=
  if d.databaseEntries.length == 0 then st
  else
    let st :=
      if ¬ d.isDictionaryDeinflection then
        { st with originalTextLength := max st.originalTextLength d.originalText.length }
      else st
    d.databaseEntries.foldl (processDatabaseEntry enabledDictionaryMap d) st

/-- Source `_findTermsInternal`, with the deinflection candidates (the
result of `_getDeinflections`, a database-dependent computation) passed in
as an oracle.  `text` is the text after the optional non-Japanese
filtering; an empty text short-circuits to an empty result. -/
def findTermsInternal (text : String) (enabledDictionaryMap : List (String × DictionaryInfo)) (deinflections : List Deinflection) : List (TermDictionaryEntry TagGroup) × Nat :=
  if text.length == 0 then ([], 0)
  else
    let st := deinflections.foldl (processDeinflection enabledDictionaryMap) ⟨0, [], []⟩
    (st.dictionaryEntries, st.originalTextLength)

/-! ## Text-variant generation (`_getAlgorithmDeinflections` support) -/

/-- Source `_getTextOptionEntryVariants`: `'true' → [true]`,
`'variant' → [false, true]`, anything else → `[false]`. -/
def getTextOptionEntryVariants (value : String) : List Bool :=
  if value == "true" then [true]
  else if value == "variant" then [false, true]
  else [false]

/-- Source `_getCollapseEmphaticOptions`: always starts from
`[[false, false]]`; the setting `'true'` adds `[true, false]`, the setting
`'full'` adds `[true, false]` and `[true, true]`. -/
def getCollapseEmphaticOptions (collapseEmphaticSequences : String) : List (Bool × Bool) :=
  let collapseEmphaticOptions := [(false, false)]
  if collapseEmphaticSequences == "true" then collapseEmphaticOptions ++ [(true, false)]
  else if collapseEmphaticSequences == "full" then collapseEmphaticOptions ++ [(true, false), (true, true)]
  else collapseEmphaticOptions

/-- The per-axis decoding step of `_generateArrayVariants`: the variant
index is read as a mixed-radix number, least-significant axis first
(`entryIndex = remainingIndex % length`,
`remainingIndex = floor(remainingIndex / length)`). -/
def generateArrayVariant {α : Type} : List (List α) → Nat → List (Option α)
  | [], _ => []
  | entryVariants :: rest, remainingIndex =>
    entryVariants.get? (remainingIndex % entryVariants.length) ::
      generateArrayVariant rest (remainingIndex / entryVariants.length)

/-- Source `_generateArrayVariants`: the axes of the variant vector space
in key order; one variant per index below the product of the axis
lengths. -/
def generateArrayVariants {α : Type} (variantVectorSpace : List (List α)) : List (List (Option α)) :=
  let totalVariants := variantVectorSpace.foldl (fun acc entryVariants => acc * entryVariants.length) 1
  (List.range totalVariants).map (generateArrayVariant variantVectorSpace)

/-! ## Grouped dictionary entries (`_createGroupedDictionaryEntry`) -/

/-- `Number.MAX_SAFE_INTEGER`. -/
def NumberMaxSafeInteger : Int := 9007199254740991

/-- `Number.MIN_SAFE_INTEGER`. -/
def NumberMinSafeInteger : Int := -9007199254740991

/-- `Number.MAX_SAFE_INTEGER` as a `Nat` (used where the source stores it
into a slot holding a non-negative index). -/
def NumberMaxSafeIntegerNat : Nat := 9007199254740991

/-- Source `_addUniqueSources`: if the accumulating list is empty, push all
new sources; otherwise push each new source that does not match an
existing one on the five text/match fields, and for a match promote the
first matching source's `isPrimary` when the new source is primary. -/
def addUniqueSources (sources newSources : List TermSource) : List TermSource :=
  if newSources.length == 0 then sources
  else if sources.length == 0 then sources ++ newSources
  else
    newSources.foldl (fun acc newSource =>
      let fieldsMatch := fun (source : TermSource) =>
        source.deinflectedText == newSource.deinflectedText &&
        source.transformedText == newSource.transformedText &&
        source.originalText == newSource.originalText &&
        source.matchType == newSource.matchType &&
        source.matchSource == newSource.matchSource
      if acc.any fieldsMatch then
        if newSource.isPrimary then
          updateFirst fieldsMatch (fun source => { source with isPrimary := true }) acc
        else acc
      else acc ++ [newSource]) sources

/-- Source `_addUniqueTagGroups`: merge tag names into the first group with
the same dictionary, otherwise push the new group. -/
def addUniqueTagGroups (tagGroups newTagGroups : List TagGroup) : List TagGroup :=
  if newTagGroups.length == 0 then tagGroups
  else
    newTagGroups.foldl (fun acc newTagGroup =>
      let sameDictionary := fun (tagGroup : TagGroup) => tagGroup.dictionary == newTagGroup.dictionary
      if acc.any sameDictionary then
        updateFirst sameDictionary
          (fun tagGroup => { tagGroup with tagNames := addUniqueSimple tagGroup.tagNames newTagGroup.tagNames }) acc
      else acc ++ [newTagGroup]) tagGroups

/-- Source `_addUniqueTermHeadwordIndex`: insertion of an index into a
sorted duplicate-free list, skipping an index already present.  The source
uses a binary search to find the insertion point; on the sorted lists the
code maintains this linear insertion computes the same list. -/
def addUniqueTermHeadwordIndex (headwordIndices : List Nat) (headwordIndex : Nat) : List Nat :=
  match headwordIndices with
  | [] => [headwordIndex]
  | x :: xs =>
    if headwordIndex == x then x :: xs
    else if headwordIndex < x then headwordIndex :: x :: xs
    else x :: addUniqueTermHeadwordIndex xs headwordIndex

/-- Source `_addTermHeadwords`, one headword step: find or create the
shared headword keyed by `(term, reading)` (new headwords get the map size
as their index), merge sources, tag groups and word classes into it, and
record its index in the headword index map. -/
def addTermHeadword (st : List ((String × String) × TermHeadword TagGroup) × List Nat) (hw : TermHeadword TagGroup) : List ((String × String) × TermHeadword TagGroup) × List Nat :=
  let key := (hw.term, hw.reading)
  let headwordsMap := st.1
  let headwordsMap :=
    if (headwordsMap.find? (fun p => p.1 == key)).isSome then headwordsMap
    else headwordsMap ++ [(key, createTermHeadword headwordsMap.length hw.term hw.reading [] [] [])]
  let merge := fun (headword : TermHeadword TagGroup) =>
    { headword with
      sources := addUniqueSources headword.sources hw.sources,
      tags := addUniqueTagGroups headword.tags hw.tags,
      wordClasses := addUniqueSimple headword.wordClasses hw.wordClasses }
  let headwordsMap := updateFirst (fun p => p.1 == key) (fun p => (p.1, merge p.2)) headwordsMap
  let idx := (((headwordsMap.find? (fun p => p.1 == key)).map (fun p => p.2.index))).getD 0
  (headwordsMap, st.2 ++ [idx])

/-- Source `_addTermHeadwords`: fold `addTermHeadword` over an entry's
headwords, returning the updated shared map and the entry's
old-index → new-index headword index map. -/
def addTermHeadwords (headwordsMap : List ((String × String) × TermHeadword TagGroup)) (headwords : List (TermHeadword TagGroup)) : List ((String × String) × TermHeadword TagGroup) × List Nat :=
  headwords.foldl addTermHeadword (headwordsMap, [])

/-- Source `_addTermDefinitionsFast`: append each new definition with
remapped headword indices and a fresh index. -/
def addTermDefinitionsFast (definitions newDefinitions : List (TermDefinition TagGroup)) (headwordIndexMap : List Nat) : List (TermDefinition TagGroup) :=
  newDefinitions.foldl (fun defs df =>
    let headwordIndicesNew := df.headwordIndices.map (fun i => (headwordIndexMap.get? i).getD 0)
    defs ++ [createTermDefinition defs.length headwordIndicesNew df.dictionary df.dictionaryIndex df.dictionaryPriority df.id df.score df.sequences df.isPrimary df.tags df.entries]) definitions

/-- The headword-index and tag merging applied to a (new or found)
definition at the end of each `_addTermDefinitions` iteration. -/
def mergeDefinitionHeadwordIndicesAndTags (definition df : TermDefinition TagGroup) (headwordIndexMap : List Nat) : TermDefinition TagGroup :=
  let definition := df.headwordIndices.foldl
    (fun dfn i => { dfn with headwordIndices := addUniqueTermHeadwordIndex dfn.headwordIndices ((headwordIndexMap.get? i).getD 0) }) definition
  { definition with tags := addUniqueTagGroups definition.tags df.tags }

/-- Source `_addTermDefinitions`: definitions are deduplicated by the key
`(dictionary, entries)`; a first sighting clones the definition (empty
headword indices and tags, copied sequences and entries); a repeated
sighting promotes `isPrimary` and unions sequences; both then merge
remapped headword indices (sorted unique) and tag groups. -/
def addTermDefinitions (definitions : List (TermDefinition TagGroup)) (definitionsMap : List ((String × List String) × Nat)) (newDefinitions : List (TermDefinition TagGroup)) (headwordIndexMap : List Nat) : List (TermDefinition TagGroup) × List ((String × List String) × Nat) :=
  newDefinitions.foldl (fun st df =>
    let (defs, dmap) := st
    let key := (df.dictionary, df.entries)
    match (dmap.find? (fun p => p.1 == key)).map Prod.snd with
    | none =>
      let definition := createTermDefinition defs.length [] df.dictionary df.dictionaryIndex df.dictionaryPriority df.id df.score df.sequences df.isPrimary [] df.entries
      let definition := mergeDefinitionHeadwordIndicesAndTags definition df headwordIndexMap
      (defs ++ [definition], dmap ++ [(key, defs.length)])
    | some i =>
      match defs.get? i with
      | none => (defs, dmap)
      | some found =>
        let found := if df.isPrimary then { found with isPrimary := true } else found
        let found := { found with sequences := addUniqueSimple found.sequences df.sequences }
        let found := mergeDefinitionHeadwordIndicesAndTags found df headwordIndexMap
        (defs.set i found, dmap)) (definitions, definitionsMap)

/-- The accumulator of the merge loop of `_createGroupedDictionaryEntry`. -/
structure GroupedAccum where
  score : Int
  dictionaryIndex : Nat
  dictionaryPriority : Int
  maxTransformedTextLength : Nat
  isPrimary : Bool
  inflectionHypotheses : Option (List InflectionHypothesis)
  definitions : List (TermDefinition TagGroup)
  definitionsMap : List ((String × List String) × Nat)

/-- The `inflectionHypotheses` selection inside the merge loop of
`_createGroupedDictionaryEntry`: a primary member replaces the current
selection when there is none yet or its hypotheses list is strictly
shorter; non-primary members are ignored. -/
def selectInflectionHypotheses (acc : Option (List InflectionHypothesis)) (dictionaryEntry : TermDictionaryEntry TagGroup) : Option (List InflectionHypothesis) :=
  if dictionaryEntry.isPrimary then
    match acc with
    | none => some dictionaryEntry.inflectionHypotheses
    | some current =>
      if dictionaryEntry.inflectionHypotheses.length < current.length then
        some dictionaryEntry.inflectionHypotheses
      else some current
  else acc

/-- One iteration of the merge loop of `_createGroupedDictionaryEntry`
(a `(dictionaryEntry, headwordIndexMap)` pair from `definitionEntries`). -/
def groupedAccumStep (checkDuplicateDefinitions : Bool) (st : GroupedAccum) (p : TermDictionaryEntry TagGroup × List Nat) : GroupedAccum :=
  let (dictionaryEntry, headwordIndexMap) := p
  let st := { st with
    score := max st.score dictionaryEntry.score,
    dictionaryIndex := min st.dictionaryIndex dictionaryEntry.dictionaryIndex,
    dictionaryPriority := max st.dictionaryPriority dictionaryEntry.dictionaryPriority }
  let st :=
    if dictionaryEntry.isPrimary then
      { st with
        isPrimary := true,
        maxTransformedTextLength := max st.maxTransformedTextLength dictionaryEntry.maxTransformedTextLength,
        inflectionHypotheses := selectInflectionHypotheses st.inflectionHypotheses dictionaryEntry }
    else st
  if checkDuplicateDefinitions then
    let merged := addTermDefinitions st.definitions st.definitionsMap dictionaryEntry.definitions headwordIndexMap
    { st with definitions := merged.1, definitionsMap := merged.2 }
  else
    { st with definitions := addTermDefinitionsFast st.definitions dictionaryEntry.definitions headwordIndexMap }

/-- The headword-collection loop of `_createGroupedDictionaryEntry`: one
entry's headwords are merged into the shared map and the entry is paired
with its headword index map (the `definitionEntries` list). -/
def groupedHeadwordStep (st : List ((String × String) × TermHeadword TagGroup) × List (TermDictionaryEntry TagGroup × List Nat)) (dictionaryEntry : TermDictionaryEntry TagGroup) : List ((String × String) × TermHeadword TagGroup) × List (TermDictionaryEntry TagGroup × List Nat) :=
  let merged := addTermHeadwords st.1 dictionaryEntry.headwords
  (merged.1, st.2 ++ [(dictionaryEntry, merged.2)])

/-- Source `_createGroupedDictionaryEntry`: build the shared headword map
(in entry order), disable duplicate-definition checking for groups of at
most one entry, aggregate scores/indices/priorities/lengths/hypotheses and
definitions, and count headwords having at least one primary source with
`matchSource === 'term'`. -/
def createGroupedDictionaryEntry (dictionaryEntries : List (TermDictionaryEntry TagGroup)) (checkDuplicateDefinitions : Bool) : TermDictionaryEntry TagGroup :=
  let built := dictionaryEntries.foldl groupedHeadwordStep
    (([] : List ((String × String) × TermHeadword TagGroup)), ([] : List (TermDictionaryEntry TagGroup × List Nat)))
  let headwordsMap := built.1
  let definitionEntries := built.2
  let checkDuplicateDefinitions := if definitionEntries.length ≤ 1 then false else checkDuplicateDefinitions
  let acc := definitionEntries.foldl (groupedAccumStep checkDuplicateDefinitions)
    { score := NumberMinSafeInteger,
      dictionaryIndex := NumberMaxSafeIntegerNat,
      dictionaryPriority := NumberMinSafeInteger,
      maxTransformedTextLength := 0,
      isPrimary := false,
      inflectionHypotheses := none,
      definitions := [],
      definitionsMap := [] }
  let headwordsArray := headwordsMap.map Prod.snd
  let sourceTermExactMatchCount := headwordsArray.countP
    (fun headword => headword.sources.any (fun source => source.isPrimary && source.matchSource == "term"))
  createTermDictionaryEntry
    acc.isPrimary
    ((acc.inflectionHypotheses).getD [])
    acc.score
    acc.dictionaryIndex
    acc.dictionaryPriority
    sourceTermExactMatchCount
    acc.maxTransformedTextLength
    headwordsArray
    acc.definitions

/-! ## Tag merging (`_mergeSimilarTags`) -/

/-- One merge of `tag2` into `tag1` inside `_mergeSimilarTags`:
`order := min`, `score := max`, dictionaries are concatenated with a plain
`push(...)`, content is appended uniquely via `_addUniqueSimple`. -/
def mergeTagPair (tag1 tag2 : Tag) : Tag :=
  { tag1 with
    order := min tag1.order tag2.order,
    score := max tag1.score tag2.score,
    dictionaries := tag1.dictionaries ++ tag2.dictionaries,
    content := addUniqueSimple tag1.content tag2.content }

/-- The inner `j` loop of `_mergeSimilarTags`: absorb, in order, every
later tag with the same `(name, category)` as `tag1` (whose name and
category the source captures before the loop and merging never changes),
returning the merged tag and the survivors. -/
def mergeTagInto (tag1 : Tag) : List Tag → Tag × List Tag
  | [] => (tag1, [])
  | tag2 :: rest =>
    if tag2.name == tag1.name && tag2.category == tag1.category then
      mergeTagInto (mergeTagPair tag1 tag2) rest
    else
      let r := mergeTagInto tag1 rest
      (r.1, tag2 :: r.2)

/-- The outer loop of `_mergeSimilarTags`, with a fuel argument bounding
the number of outer iterations.  `mergeTagInto` never lengthens the
pending list, so fuel equal to the input length (as supplied by
`mergeSimilarTags`) always suffices and the fuel-zero case is
unreachable. -/
def mergeSimilarTagsAux : Nat → List Tag → List Tag
  | 0, _ => []
  | _ + 1, [] => []
  | fuel + 1, tag1 :: rest =>
    let r := mergeTagInto tag1 rest
    r.1 :: mergeSimilarTagsAux fuel r.2

/-- Source `_mergeSimilarTags` (returning the merged list rather than
mutating in place). -/
def mergeSimilarTags (tags : List Tag) : List Tag :=
  mergeSimilarTagsAux tags.length tags

/-! ## Sort-frequency computation (`_updateSortFrequencies`) -/

/-- A JS `Map<number, number>` set (insertion-ordered, overwriting). -/
def jsMapSet (m : List (Nat × Int)) (k : Nat) (v : Int) : List (Nat × Int) :=
  if (m.find? (fun p => p.1 == k)).isSome then
    updateFirst (fun p => p.1 == k) (fun p => (p.1, v)) m
  else m ++ [(k, v)]

/-- A JS `Map<number, number>` get. -/
def jsMapGet (m : List (Nat × Int)) (k : Nat) : Option Int :=
  (m.find? (fun p => p.1 == k)).map Prod.snd

/-- The conditional the source applies to turn a scanned `(min, max)`
sentinel pair into a `frequencyOrder` value: when no frequency was seen the
sentinels are still `MAX_SAFE_INTEGER > MIN_SAFE_INTEGER` and the default
applies. -/
def frequencyOrderOf (ascending : Bool) (frequencyMin frequencyMax : Int) : Int :=
  if frequencyMin ≤ frequencyMax then (if ascending then frequencyMin else -frequencyMax)
  else (if ascending then NumberMaxSafeInteger else 0)

/-- The per-item body of the frequency scan of `_updateSortFrequencies`:
items of other dictionaries are skipped; a matching item overwrites the
frequency map slot of its headword index and feeds the min/max
sentinels. -/
def sortFrequencyScanStep (dictionary : String) (acc : List (Nat × Int) × Int × Int) (item : TermFrequency) : List (Nat × Int) × Int × Int :=
  if item.dictionary == dictionary then
    (jsMapSet acc.1 item.headwordIndex item.frequency,
     min acc.2.1 item.frequency,
     max acc.2.2 item.frequency)
  else acc

/-- The per-headword-index body of the definition loop of
`_updateSortFrequencies`: a map hit feeds the min/max sentinels, a miss is
skipped. -/
def definitionFrequencyScanStep (frequencyMap : List (Nat × Int)) (acc : Int × Int) (headwordIndex : Nat) : Int × Int :=
  match jsMapGet frequencyMap headwordIndex with
  | some frequency => (min acc.1 frequency, max acc.2 frequency)
  | none => acc

/-- Source `_updateSortFrequencies`, one dictionary entry: scan the
entry's frequencies from the nominated dictionary into a headword-index
map (later items overwrite earlier ones) while tracking min and max, set
the entry's `frequencyOrder`, then compute each definition's
`frequencyOrder` from the map values of its headword indices. -/
def updateSortFrequenciesEntry {τ : Type} (dictionary : String) (ascending : Bool) (e : TermDictionaryEntry τ) : TermDictionaryEntry τ :=
  let scan := e.frequencies.foldl (sortFrequencyScanStep dictionary)
    ([], NumberMaxSafeInteger, NumberMinSafeInteger)
  let frequencyMap := scan.1
  let definitions := e.definitions.map (fun definition =>
    let scanD := definition.headwordIndices.foldl (definitionFrequencyScanStep frequencyMap)
      (NumberMaxSafeInteger, NumberMinSafeInteger)
    { definition with frequencyOrder := frequencyOrderOf ascending scanD.1 scanD.2 })
  { e with
    frequencyOrder := frequencyOrderOf ascending scan.2.1 scan.2.2,
    definitions := definitions }

/-- Source `_updateSortFrequencies` over a list of entries (the frequency
map is cleared between entries). -/
def updateSortFrequencies {τ : Type} (dictionaryEntries : List (TermDictionaryEntry τ)) (dictionary : String) (ascending : Bool) : List (TermDictionaryEntry τ) :=
  dictionaryEntries.map (updateSortFrequenciesEntry dictionary ascending)

/-! ## The entry sort (`_sortTermDictionaryEntries`) -/

/-- The sign of a JS comparator value as an `Ordering`. -/
def ordOfInt (i : Int) : Ordering :=
  if i < 0 then .lt else if i = 0 then .eq else .gt

/-- The headword loop of the `_sortTermDictionaryEntries` comparator: walk
the two headword lists in parallel up to the shorter length; each position
compares term length descending, then the collated term text ascending;
exhaustion of either list yields 0 and the comparator moves on. -/
def compareTermsOfHeadwords {τ : Type} (collate : String → String → Int) : List (TermHeadword τ) → List (TermHeadword τ) → Int
  | h1 :: t1, h2 :: t2 =>
    let i : Int := (h2.term.length : Int) - (h1.term.length : Int)
    if i ≠ 0 then i
    else
      let i := collate h1.term h2.term
      if i ≠ 0 then i else compareTermsOfHeadwords collate t1 t2
  | _, _ => 0

/-- The comparator of `_sortTermDictionaryEntries`, with the
`Intl.Collator` comparison passed in as `collate`. -/
def sortTermDictionaryEntriesCompare {τ : Type} (collate : String → String → Int) (v1 v2 : TermDictionaryEntry τ) : Int :=
  let i : Int := (v2.maxTransformedTextLength : Int) - (v1.maxTransformedTextLength : Int)
  if i ≠ 0 then i else
  let i : Int := (v1.inflectionHypotheses.length : Int) - (v2.inflectionHypotheses.length : Int)
  if i ≠ 0 then i else
  let i : Int := (v2.sourceTermExactMatchCount : Int) - (v1.sourceTermExactMatchCount : Int)
  if i ≠ 0 then i else
  let i : Int := v1.frequencyOrder - v2.frequencyOrder
  if i ≠ 0 then i else
  let i : Int := v2.dictionaryPriority - v1.dictionaryPriority
  if i ≠ 0 then i else
  let i : Int := v2.score - v1.score
  if i ≠ 0 then i else
  let i : Int := compareTermsOfHeadwords collate v1.headwords v2.headwords
  if i ≠ 0 then i else
  let i : Int := (v2.definitions.length : Int) - (v1.definitions.length : Int)
  if i ≠ 0 then i else
  (v1.dictionaryIndex : Int) - (v2.dictionaryIndex : Int)

/-- Source `_sortTermDictionaryEntries`: a stable sort (JS
`Array.prototype.sort`) under the comparator, modelled by insertion
sort. -/
def sortTermDictionaryEntries {τ : Type} (collate : String → String → Int) (dictionaryEntries : List (TermDictionaryEntry τ)) : List (TermDictionaryEntry τ) :=
  List.insertionSort (fun a b => sortTermDictionaryEntriesCompare collate a b ≤ 0) dictionaryEntries

/-- The claim's headword-term comparison, written from the spec's words:
pairwise over the common length, descending term length then collated
ascending. -/
def specHeadwordTermCompare {τ : Type} (collate : String → String → Int) : List (TermHeadword τ) → List (TermHeadword τ) → Ordering
  | h1 :: t1, h2 :: t2 =>
    ((compare h2.term.length h1.term.length).then (ordOfInt (collate h1.term h2.term))).then
      (specHeadwordTermCompare collate t1 t2)
  | _, _ => .eq

/-- The entry ordering as the claim states it, written from the spec's
words: a lexicographic chain of the nine keys. -/
def sortTermDictionaryEntriesSpecCompare {τ : Type} (collate : String → String → Int) (v1 v2 : TermDictionaryEntry τ) : Ordering :=
  (compare v2.maxTransformedTextLength v1.maxTransformedTextLength).then
  ((compare v1.inflectionHypotheses.length v2.inflectionHypotheses.length).then
  ((compare v2.sourceTermExactMatchCount v1.sourceTermExactMatchCount).then
  ((compare v1.frequencyOrder v2.frequencyOrder).then
  ((compare v2.dictionaryPriority v1.dictionaryPriority).then
  ((compare v2.score v1.score).then
  ((specHeadwordTermCompare collate v1.headwords v2.headwords).then
  ((compare v2.definitions.length v1.definitions.length).then
  (compare v1.dictionaryIndex v2.dictionaryIndex))))))))

/-! ## The definition sort (`_sortTermDictionaryEntryDefinitions`) -/

/-- The element-wise part of the headword-index comparison in the
definitions comparator (runs only after the lengths compared equal). -/
def compareNatListValues : List Nat → List Nat → Int
  | a :: as, b :: bs =>
    let i : Int := (a : Int) - (b : Int)
    if i ≠ 0 then i else compareNatListValues as bs
  | _, _ => 0

/-- The `scoreFromTags` helper of the definitions comparator. -/
def scoreFromTags (v : TermDefinition Tag) : Int :=
  v.tags.foldl (fun a b => a + b.score) 0

/-- The comparator of `_sortTermDictionaryEntryDefinitions`. -/
def sortTermDictionaryEntryDefinitionsCompare (v1 v2 : TermDefinition Tag) : Int :=
  let i : Int := v1.frequencyOrder - v2.frequencyOrder
  if i ≠ 0 then i else
  let i : Int := v2.dictionaryPriority - v1.dictionaryPriority
  if i ≠ 0 then i else
  let i : Int := v2.score - v1.score
  if i ≠ 0 then i else
  let i : Int := (v2.headwordIndices.length : Int) - (v1.headwordIndices.length : Int)
  if i ≠ 0 then i else
  let i : Int := compareNatListValues v1.headwordIndices v2.headwordIndices
  if i ≠ 0 then i else
  let i : Int := (v1.dictionaryIndex : Int) - (v2.dictionaryIndex : Int)
  if i ≠ 0 then i else
  let i : Int := scoreFromTags v2 - scoreFromTags v1
  if i ≠ 0 then i else
  (v1.index : Int) - (v2.index : Int)

/-- Source `_sortTermDictionaryEntryDefinitions`: a stable sort under the
comparator, modelled by insertion sort. -/
def sortTermDictionaryEntryDefinitions (definitions : List (TermDefinition Tag)) : List (TermDefinition Tag) :=
  List.insertionSort (fun a b => sortTermDictionaryEntryDefinitionsCompare a b ≤ 0) definitions

/-- Standard ascending lexicographic comparison of index lists, written
from the claim's words (a proper prefix is smaller). -/
def natListLexCompare : List Nat → List Nat → Ordering
  | [], [] => .eq
  | [], _ :: _ => .lt
  | _ :: _, [] => .gt
  | a :: as, b :: bs => (compare a b).then (natListLexCompare as bs)

/-- The definition ordering exactly as the claim states it, written from
the spec's words, with the headword-index lists compared by ascending
lexicographic order. -/
def claimDefinitionsCompare (v1 v2 : TermDefinition Tag) : Ordering :=
  (compare v1.frequencyOrder v2.frequencyOrder).then
  ((compare v2.dictionaryPriority v1.dictionaryPriority).then
  ((compare v2.score v1.score).then
  ((natListLexCompare v1.headwordIndices v2.headwordIndices).then
  ((compare v1.dictionaryIndex v2.dictionaryIndex).then
  ((compare (scoreFromTags v2) (scoreFromTags v1)).then
  (compare v1.index v2.index))))))

/-- The element-wise comparison over the common length as an `Ordering`
(spec side of the amended headword-index key). -/
def natListValuesCompare : List Nat → List Nat → Ordering
  | a :: as, b :: bs => (compare a b).then (natListValuesCompare as bs)
  | _, _ => .eq

/-- The definition ordering the code actually implements (the amended
claim): the headword-index lists are compared by descending length first,
then element-wise ascending. -/
def amendedDefinitionsCompare (v1 v2 : TermDefinition Tag) : Ordering :=
  (compare v1.frequencyOrder v2.frequencyOrder).then
  ((compare v2.dictionaryPriority v1.dictionaryPriority).then
  ((compare v2.score v1.score).then
  (((compare v2.headwordIndices.length v1.headwordIndices.length).then
    (natListValuesCompare v1.headwordIndices v2.headwordIndices)).then
  ((compare v1.dictionaryIndex v2.dictionaryIndex).then
  ((compare (scoreFromTags v2) (scoreFromTags v1)).then
  (compare v1.index v2.index))))))

/-! ## The metadata phase of `findTerms` (mode dispatch, C10) -/

/-- A database request issued by the metadata phase: a term-meta bulk
query naming the dictionaries of its enabled-dictionary map argument, or a
tag-meta bulk query (issued by `_expandTermTags`). -/
inductive DatabaseRequest
  | termMeta (dictionaries : List String)
  | tagMeta
deriving DecidableEq, Repr

/-- The effect of `_getTermTagTargets` (via `_addTagExpansionTargets`) on
one tag list when the collected targets are discarded, as `_clearTermTags`
does: a non-empty tag list is replaced by a fresh empty one. -/
def clearTagList {τ : Type} (tags : List τ) : List τ :=
  if tags.length == 0 then tags else []

/-- Source `_clearTermTags`: clear every tag list on headwords,
definitions, pitches and phonetic transcriptions. -/
def clearTermTagsEntry {τ : Type} (e : TermDictionaryEntry τ) : TermDictionaryEntry τ :=
  { e with
    headwords := e.headwords.map (fun hw => { hw with tags := clearTagList hw.tags }),
    definitions := e.definitions.map (fun df => { df with tags := clearTagList df.tags }),
    pronunciations := e.pronunciations.map (fun p =>
      { p with
        pitches := p.pitches.map (fun pitch => { pitch with tags := clearTagList pitch.tags }),
        phoneticTranscriptions := p.phoneticTranscriptions.map (fun pt => { pt with tags := clearTagList pt.tags }) }) }

/-- Source `_clearTermTags` over the entry list. -/
def clearTermTags {τ : Type} (dictionaryEntries : List (TermDictionaryEntry τ)) : List (TermDictionaryEntry τ) :=
  dictionaryEntries.map clearTermTagsEntry

/-- The `sortDictionaryMap` built in the `simple` branch of `findTerms`:
the enabled-dictionary map restricted to the sort-frequency dictionary
(empty when that dictionary is not enabled). -/
def restrictToSortDictionary (enabledDictionaryMap : List (String × DictionaryInfo)) (sortFrequencyDictionary : String) : List (String × DictionaryInfo) :=
  ([sortFrequencyDictionary].filter
      (fun key => (enabledDictionaryMap.find? (fun p => p.1 == key)).isSome)).foldl
    (fun subMap key =>
      match (enabledDictionaryMap.find? (fun p => p.1 == key)).map Prod.snd with
      | some info => subMap ++ [(key, info)]
      | none => subMap)
    []

/-- The metadata phase of `findTerms` (the `if (mode === 'simple')`
dispatch): in `simple` mode, term metadata is added only for the
sort-frequency dictionary when one is set, and `_clearTermTags` runs last;
in every other mode term metadata is added for all enabled dictionaries
and `_expandTermTags` performs a tag-meta lookup.  The database-dependent
bodies of `_addTermMeta` and `_expandTermTags` are oracles `addTermMeta`
and `expandTermTags`; the requests they issue are logged alongside the
entries. -/
def findTermsMetaPhase {τ : Type} (mode : String) (sortFrequencyDictionary : Option String)
    (enabledDictionaryMap : List (String × DictionaryInfo))
    (addTermMeta : List (String × DictionaryInfo) → List (TermDictionaryEntry τ) → List (TermDictionaryEntry τ))
    (expandTermTags : List (TermDictionaryEntry τ) → List (TermDictionaryEntry τ))
    (dictionaryEntries : List (TermDictionaryEntry τ)) :
    List (TermDictionaryEntry τ) × List DatabaseRequest :=
  if mode == "simple" then
    match sortFrequencyDictionary with
    | some sortDictionary =>
      let sortDictionaryMap := restrictToSortDictionary enabledDictionaryMap sortDictionary
      (clearTermTags (addTermMeta sortDictionaryMap dictionaryEntries),
       [DatabaseRequest.termMeta (sortDictionaryMap.map Prod.fst)])
    | none => (clearTermTags dictionaryEntries, [])
  else
    (expandTermTags (addTermMeta enabledDictionaryMap dictionaryEntries),
     [DatabaseRequest.termMeta (enabledDictionaryMap.map Prod.fst), DatabaseRequest.tagMeta])

/-! ## Spec-side definitions used in the claim statements -/

/-- Equality of inflection lists as sets (same members, multiplicity and
order ignored) — the equality the code's `_areInflectionHyphothesesEqual`
actually decides. -/
def hypSetEq (a b : List String) : Bool :=
  a.all (fun x => b.contains x) && b.all (fun x => a.contains x)

/-- Equality of inflection lists as multisets — the equality the claim
asserts. -/
def hypMultisetEq (a b : List String) : Bool :=
  decide (a.Perm b)

/-- The first element of a list of hypothesis lists attaining the minimal
length (recursive formulation; agrees with
`find? (fun h => all (h.length ≤ ·.length))`). -/
def firstMinBy : List (List InflectionHypothesis) → Option (List InflectionHypothesis)
  | [] => none
  | h :: t =>
    match firstMinBy t with
    | none => some h
    | some m => if m.length < h.length then some m else some h

/-- The frequencies of an entry coming from the nominated sort
dictionary, in list order (spec side of C6). -/
def sortFrequencyValues {τ : Type} (dictionary : String) (e : TermDictionaryEntry τ) : List Int :=
  (e.frequencies.filter (fun it => it.dictionary == dictionary)).map (fun it => it.frequency)

/-- The last-listed frequency of the nominated sort dictionary for one
headword index of an entry (spec side of the amended C6: the code's
frequency map retains the last write per headword index). -/
def lastHeadwordFrequency {τ : Type} (dictionary : String) (e : TermDictionaryEntry τ) (headwordIndex : Nat) : Option Int :=
  ((e.frequencies.filter (fun it => it.dictionary == dictionary && it.headwordIndex == headwordIndex)).map (fun it => it.frequency)).getLast?

/-- The claim's frequency-order computation over a list of frequencies:
the minimum (ascending) or the negated maximum (descending), with the
defaults `MAX_SAFE_INTEGER` / `0` when the list is empty. -/
def specFrequencyOrder (ascending : Bool) (fs : List Int) : Int :=
  match fs.min?, fs.max? with
  | some mn, some mx => if ascending then mn else -mx
  | _, _ => if ascending then NumberMaxSafeInteger else 0

/-- A comparator validity predicate: antisymmetric under `swap`,
substitutive across `eq`, and transitive on `lt`.  The lexicographic
chains built from `compare` on linear orders satisfy it. -/
def LawfulOCmp {α : Type} (f : α → α → Ordering) : Prop :=
  (∀ a b, (f a b).swap = f b a) ∧
  (∀ a b c, f a b = .eq → f a c = f b c) ∧
  (∀ a b c, f a b = .lt → f b c = .lt → f a c = .lt)

/-- The headword-index key of the definitions comparator as an `Ordering`
on the index lists: descending length, then element-wise ascending. -/
def hwIdxOrd (l1 l2 : List Nat) : Ordering :=
  (compare l2.length l1.length).then (natListValuesCompare l1 l2)

/-- All four tag-list families of a term dictionary entry are empty
(headwords, definitions, pitches, phonetic transcriptions). -/
def allTermTagsEmpty {τ : Type} (e : TermDictionaryEntry τ) : Prop :=
  (∀ hw ∈ e.headwords, hw.tags = []) ∧
  (∀ df ∈ e.definitions, df.tags = []) ∧
  (∀ p ∈ e.pronunciations,
    (∀ pitch ∈ p.pitches, pitch.tags = []) ∧
    (∀ pt ∈ p.phoneticTranscriptions, pt.tags = []))

/-! ## Concrete objects used by the counterexamples and witnesses -/

/-- A trivial collation (any total preorder works for the C1 cycle, which
only ever collates equal strings). -/
def collate0 : String → String → Int := fun _ _ => 0

/-- A headword carrying only a term, as needed by the entry comparator. -/
def exampleHeadword (term : String) : TermHeadword TagGroup :=
  ⟨0, term, term, [], [], []⟩

/-- An entry whose comparator keys are all tied except `dictionaryIndex`
and the headword terms. -/
def exampleEntry (dictionaryIndex : Nat) (terms : List String) : TermDictionaryEntry TagGroup :=
  { isPrimary := true, inflectionHypotheses := [], score := 0, frequencyOrder := 0,
    dictionaryIndex, dictionaryPriority := 0, sourceTermExactMatchCount := 0,
    maxTransformedTextLength := 0, headwords := terms.map exampleHeadword,
    definitions := [], pronunciations := [], frequencies := [] }

/-- First member of the C1 comparator cycle. -/
def entryU1 : TermDictionaryEntry TagGroup := exampleEntry 1 ["aa"]

/-- Second member of the C1 comparator cycle. -/
def entryU2 : TermDictionaryEntry TagGroup := exampleEntry 2 ["aa", "bbbbb"]

/-- Third member of the C1 comparator cycle. -/
def entryU3 : TermDictionaryEntry TagGroup := exampleEntry 0 ["aa", "bbb"]

/-- A database entry whose `matchSource` is `term` via a non-exact (prefix)
match: the looked-up deinflected text `"foo"` matched the term `"foobar"`. -/
def prefixMatchDatabaseEntry : DatabaseEntry :=
  { id := 1, index := 0, term := "foobar", reading := "", definitionTags := [],
    termTags := [], rules := [], score := 0, dictionary := "D", sequence := -1,
    matchType := "prefix", matchSource := "term", definitions := [] }

/-- A frequency record of dictionary `"D"` for headword 0. -/
def exampleFrequency (index : Nat) (frequency : Int) : TermFrequency :=
  { index, headwordIndex := 0, dictionary := "D", dictionaryIndex := 0,
    dictionaryPriority := 0, hasReading := false, frequency,
    displayValue := none, displayValueParsed := false }

/-- A minimal definition over headword 0 (tag payload `TagGroup`). -/
def exampleDefinition : TermDefinition TagGroup :=
  { index := 0, headwordIndices := [0], dictionary := "D", dictionaryIndex := 0,
    dictionaryPriority := 0, id := 0, score := 0, frequencyOrder := 0,
    sequences := [], isPrimary := true, tags := [], entries := [] }

/-- An entry with one headword whose sort dictionary lists two
frequencies, 3 then 5, for the same headword index 0. -/
def exampleFrequencyEntry : TermDictionaryEntry TagGroup :=
  { isPrimary := true, inflectionHypotheses := [], score := 0, frequencyOrder := 0,
    dictionaryIndex := 0, dictionaryPriority := 0, sourceTermExactMatchCount := 1,
    maxTransformedTextLength := 0, headwords := [exampleHeadword "x"],
    definitions := [exampleDefinition], pronunciations := [],
    frequencies := [exampleFrequency 0 3, exampleFrequency 1 5] }

/-- A minimal expanded-tag definition for the C7 counterexample. -/
def exampleTagDefinitionA : TermDefinition Tag :=
  { index := 0, headwordIndices := [0], dictionary := "D", dictionaryIndex := 0,
    dictionaryPriority := 0, id := 0, score := 0, frequencyOrder := 0,
    sequences := [], isPrimary := true, tags := [], entries := [] }

/-- As `exampleTagDefinitionA` but with the longer headword-index list
`[0, 1]` (lexicographically larger, but sorted earlier by the code). -/
def exampleTagDefinitionB : TermDefinition Tag :=
  { exampleTagDefinitionA with index := 1, headwordIndices := [0, 1] }

/-- A deinflection candidate for `"foo"` with a single algorithm
hypothesis. -/
def exampleDeinflection : Deinflection :=
  { originalText := "foo", transformedText := "foo", deinflectedText := "foo",
    rules := 0, inflectionHypotheses := [⟨"algorithm", ["past"]⟩],
    databaseEntries := [prefixMatchDatabaseEntry], isDictionaryDeinflection := false }

/-- A tag of dictionary `"D"` for the C8 counterexample. -/
def exampleTag : Tag :=
  { name := "n", category := "partOfSpeech", order := 2, score := 1,
    content := ["noun"], dictionaries := ["D"], redundant := false }

/-! ## Shared helper lemmas -/

theorem addUniqueSimple_mem {α : Type} [DecidableEq α] (l newItems : List α) (x : α) :
    x ∈ addUniqueSimple l newItems ↔ x ∈ l ∨ x ∈ newItems := by
  induction newItems generalizing l with
  | nil => simp [addUniqueSimple]
  | cons n ns ih =>
    show x ∈ addUniqueSimple (if l.contains n then l else l ++ [n]) ns ↔ _
    rw [ih]
    by_cases hn : l.contains n
    · simp only [if_pos hn]
      have : n ∈ l := by simpa using hn
      constructor
      · rintro (h | h)
        · exact Or.inl h
        · exact Or.inr (List.mem_cons_of_mem _ h)
      · rintro (h | h)
        · exact Or.inl h
        · rcases List.mem_cons.mp h with rfl | h
          · exact Or.inl this
          · exact Or.inr h
    · simp only [if_neg hn, List.mem_append, List.mem_singleton, List.mem_cons]
      tauto

theorem addUniqueSimple_nodup {α : Type} [DecidableEq α] (l newItems : List α) (h : l.Nodup) :
    (addUniqueSimple l newItems).Nodup := by
  induction newItems generalizing l with
  | nil => exact h
  | cons n ns ih =>
    show (addUniqueSimple (if l.contains n then l else l ++ [n]) ns).Nodup
    by_cases hn : l.contains n
    · rw [if_pos hn]; exact ih l h
    · rw [if_neg hn]
      refine ih (l ++ [n]) ?_
      have : n ∉ l := by simpa using hn
      simp [List.nodup_append, h, this]

theorem jsSetOfList_eq_addUniqueSimple (l : List String) :
    jsSetOfList l = addUniqueSimple [] l := rfl

theorem jsSetOfList_mem (l : List String) (x : String) :
    x ∈ jsSetOfList l ↔ x ∈ l := by
  rw [jsSetOfList_eq_addUniqueSimple, addUniqueSimple_mem]
  simp

theorem jsSetOfList_nodup (l : List String) : (jsSetOfList l).Nodup := by
  rw [jsSetOfList_eq_addUniqueSimple]
  exact addUniqueSimple_nodup [] l List.nodup_nil

theorem nodup_subset_of_length_eq {α : Type} [DecidableEq α] (l1 l2 : List α)
    (h1 : l1.Nodup) (h2 : l2.Nodup) (hlen : l1.length = l2.length)
    (hsub : ∀ x ∈ l1, x ∈ l2) : ∀ x ∈ l2, x ∈ l1 := by
  have hfs : l1.toFinset ⊆ l2.toFinset := by
    intro x hx
    rw [List.mem_toFinset] at hx ⊢
    exact hsub x hx
  have hcard : l2.toFinset.card ≤ l1.toFinset.card := by
    rw [List.toFinset_card_of_nodup h1, List.toFinset_card_of_nodup h2, hlen]
  have := Finset.eq_of_subset_of_card_le hfs hcard
  intro x hx
  rw [← List.mem_toFinset, ← this, List.mem_toFinset] at hx
  exact hx

/-! ## C5: text-variant counts -/

/-- C5 counterexample: the collapse-emphatic-sequences axis does not fit
the claimed "off/on emit one outcome" rule: with the setting `'true'`
(on) the source emits two outcomes, and with `'full'` three. -/
theorem C5_counterexample :
    (getCollapseEmphaticOptions "true").length = 2 ∧
    (getCollapseEmphaticOptions "full").length = 3 ∧
    ¬ (getCollapseEmphaticOptions "true").length = 1 := by
  decide

/-- C5 (amended): a text-transformation axis emits two outcomes for the
setting `'variant'` and one outcome otherwise (in particular for `'true'`
and `'false'`); the collapse-emphatic axis emits one, two or three
outcomes for the settings off / `'true'` / `'full'`; the number of
generated variants equals the product over the axes of their outcome
counts. -/
theorem C5_amended :
    (∀ value : String,
      (getTextOptionEntryVariants value).length = if value = "variant" then 2 else 1) ∧
    (∀ setting : String,
      (getCollapseEmphaticOptions setting).length =
        if setting = "true" then 2 else if setting = "full" then 3 else 1) ∧
    (∀ (α : Type) (variantVectorSpace : List (List α)),
      (generateArrayVariants variantVectorSpace).length =
        variantVectorSpace.foldl (fun acc entryVariants => acc * entryVariants.length) 1) := by
  refine ⟨?_, ?_, ?_⟩
  · intro value
    by_cases h1 : value = "true"
    · subst h1; decide
    · by_cases h2 : value = "variant"
      · subst h2; decide
      · simp [getTextOptionEntryVariants, h1, h2]
  · intro setting
    by_cases h1 : setting = "true"
    · subst h1; decide
    · by_cases h2 : setting = "full"
      · subst h2; decide
      · simp [getCollapseEmphaticOptions, h1, h2]
  · intro α variantVectorSpace
    simp [generateArrayVariants]

/-! ## C8: tag merging -/

/-- C8 counterexample: merging two tags with equal `(name, category)` and
the same dictionary list `["D"]` produces a tag whose dictionaries list is
`["D", "D"]` — the source appends dictionaries with a plain `push`, not
uniquely, so an element appears twice after the merge. -/
theorem C8_counterexample :
    mergeSimilarTags [exampleTag, exampleTag] =
      [{ exampleTag with dictionaries := ["D", "D"] }] ∧
    ¬ (["D", "D"] : List String).Nodup := by
  decide

/-- C8 (amended): two tags in one list with equal `(name, category)` are
merged into a single tag with `order := min`, `score := max`, the
dictionaries lists concatenated as-is (duplicates are kept), and the
content lists appended uniquely; unique appending adds exactly the missing
members and preserves duplicate-freeness. -/
theorem C8_amended :
    (∀ t1 t2 : Tag, t1.name = t2.name → t1.category = t2.category →
      mergeSimilarTags [t1, t2] =
        [{ t1 with
            order := min t1.order t2.order,
            score := max t1.score t2.score,
            dictionaries := t1.dictionaries ++ t2.dictionaries,
            content := addUniqueSimple t1.content t2.content }]) ∧
    (∀ (l newItems : List String) (x : String),
      x ∈ addUniqueSimple l newItems ↔ x ∈ l ∨ x ∈ newItems) ∧
    (∀ (l newItems : List String), l.Nodup → (addUniqueSimple l newItems).Nodup) := by
  refine ⟨?_, addUniqueSimple_mem, addUniqueSimple_nodup⟩
  intro t1 t2 hname hcat
  simp [mergeSimilarTags, mergeSimilarTagsAux, mergeTagInto, mergeTagPair,
    beq_iff_eq, hname.symm, hcat.symm]

/-- C8 witness: the amended merge rule applied to two concrete tags, and
the duplicate-freeness of unique appending at a concrete input. -/
theorem C8_witness :
    mergeSimilarTags [exampleTag, exampleTag] =
      [{ exampleTag with
          order := min exampleTag.order exampleTag.order,
          score := max exampleTag.score exampleTag.score,
          dictionaries := exampleTag.dictionaries ++ exampleTag.dictionaries,
          content := addUniqueSimple exampleTag.content exampleTag.content }] ∧
    (addUniqueSimple ["a"] ["a", "b"]).Nodup :=
  ⟨C8_amended.1 exampleTag exampleTag rfl rfl,
   C8_amended.2.2 ["a"] ["a", "b"] (by decide)⟩

/-! ## C2: deduplication by id and hypothesis merging -/

theorem areInflectionHyphothesesEqual_eq_hypSetEq (a b : List String) :
    areInflectionHyphothesesEqual a b = hypSetEq a b := by
  rw [Bool.eq_iff_iff]
  simp only [areInflectionHyphothesesEqual, hypSetEq, Bool.and_eq_true, beq_iff_eq,
    List.all_eq_true, List.elem_iff]
  constructor
  · rintro ⟨hlen, hsub⟩
    have hsub' : ∀ x ∈ jsSetOfList a, x ∈ jsSetOfList b := by
      intro x hx
      simpa [jsSetOfList_mem] using hsub x hx
    have hback := nodup_subset_of_length_eq (jsSetOfList a) (jsSetOfList b)
      (jsSetOfList_nodup a) (jsSetOfList_nodup b) hlen hsub'
    constructor
    · intro x hx
      have := hsub' x ((jsSetOfList_mem a x).mpr hx)
      exact (jsSetOfList_mem b x).mp this
    · intro x hx
      have := hback x ((jsSetOfList_mem b x).mpr hx)
      exact (jsSetOfList_mem a x).mp this
  · rintro ⟨hab, hba⟩
    have hmemEq : ∀ x, x ∈ jsSetOfList a ↔ x ∈ jsSetOfList b := by
      intro x
      rw [jsSetOfList_mem, jsSetOfList_mem]
      exact ⟨fun h => hab x h, fun h => hba x h⟩
    have hfs : (jsSetOfList a).toFinset = (jsSetOfList b).toFinset := by
      ext x
      simp only [List.mem_toFinset]
      exact hmemEq x
    refine ⟨?_, ?_⟩
    · rw [← List.toFinset_card_of_nodup (jsSetOfList_nodup a),
        ← List.toFinset_card_of_nodup (jsSetOfList_nodup b), hfs]
    · intro x hx
      exact (hmemEq x).mp hx

theorem mergeInflectionHypotheses_eq_with_hypSetEq (existingHypotheses incoming : List InflectionHypothesis) :
    mergeInflectionHypotheses existingHypotheses incoming =
      mergeInflectionHypothesesWith hypSetEq existingHypotheses incoming := by
  unfold mergeInflectionHypotheses
  rw [show areInflectionHyphothesesEqual = hypSetEq from
    funext fun a => funext fun b => areInflectionHyphothesesEqual_eq_hypSetEq a b]

/-- C2 counterexample: the code treats the hypotheses `["past"]` and
`["past", "past"]` as equal (set comparison), so the incoming hypothesis is
absorbed and the duplicate's source becomes `"both"`; under the claimed
multiset equality the two are different and the incoming hypothesis would
have been appended — which is exactly what the multiset-parameterised
merge does. -/
theorem C2_counterexample :
    mergeInflectionHypotheses [⟨"algorithm", ["past"]⟩] [⟨"dictionary", ["past", "past"]⟩] =
      [⟨"both", ["past"]⟩] ∧
    ¬ (["past"] : List String).Perm ["past", "past"] ∧
    mergeInflectionHypothesesWith hypMultisetEq
        [⟨"algorithm", ["past"]⟩] [⟨"dictionary", ["past", "past"]⟩] =
      [⟨"algorithm", ["past"]⟩, ⟨"dictionary", ["past", "past"]⟩] := by
  refine ⟨?_, by decide, ?_⟩ <;> decide

/-- C2 (amended): the dedup loop behaves as claimed except that hypothesis
equality is equality of the inflection lists *as sets* (duplicates and
order ignored), not as multisets: (1) the code's equality test decides set
equality; (2) the merge is the set-equality merge; (3) a first sighting of
an id (not tagged `non-lemma`) appends a primary entry and records the id;
(4) a repeated id with strictly shorter transformed text leaves the state
unchanged; (5) a repeated id with transformed text at least as long merges
the incoming hypotheses into the first entry holding the id. -/
theorem C2_amended :
    (∀ a b : List String, areInflectionHyphothesesEqual a b = hypSetEq a b) ∧
    (∀ existingHypotheses incoming : List InflectionHypothesis,
      mergeInflectionHypotheses existingHypotheses incoming =
        mergeInflectionHypothesesWith hypSetEq existingHypotheses incoming) ∧
    (∀ (m : List (String × DictionaryInfo)) (d : Deinflection) (st : FindTermsState) (e : DatabaseEntry),
      st.ids.contains e.id = false →
      e.definitionTags.contains "non-lemma" = false →
      processDatabaseEntry m d st e =
        { st with
          dictionaryEntries := st.dictionaryEntries ++
            [createTermDictionaryEntryFromDatabaseEntry e d.originalText d.transformedText d.deinflectedText d.inflectionHypotheses true m],
          ids := st.ids ++ [e.id] } ∧
      (createTermDictionaryEntryFromDatabaseEntry e d.originalText d.transformedText d.deinflectedText d.inflectionHypotheses true m).isPrimary = true) ∧
    (∀ (m : List (String × DictionaryInfo)) (d : Deinflection) (st : FindTermsState) (e : DatabaseEntry) (ex : TermDictionaryEntry TagGroup),
      st.ids.contains e.id = true →
      st.dictionaryEntries.find? (fun entry => entry.definitions.any (fun df => df.id == e.id)) = some ex →
      d.transformedText.length <
        ((((ex.headwords.head?).bind (fun hw => hw.sources.head?)).map (fun s => s.transformedText.length)).getD 0) →
      processDatabaseEntry m d st e = st) ∧
    (∀ (m : List (String × DictionaryInfo)) (d : Deinflection) (st : FindTermsState) (e : DatabaseEntry) (ex : TermDictionaryEntry TagGroup),
      st.ids.contains e.id = true →
      st.dictionaryEntries.find? (fun entry => entry.definitions.any (fun df => df.id == e.id)) = some ex →
      d.transformedText.length ≥
        ((((ex.headwords.head?).bind (fun hw => hw.sources.head?)).map (fun s => s.transformedText.length)).getD 0) →
      processDatabaseEntry m d st e =
        { st with
          dictionaryEntries := updateFirst
            (fun entry => entry.definitions.any (fun df => df.id == e.id))
            (fun entry => { entry with
              inflectionHypotheses := mergeInflectionHypotheses entry.inflectionHypotheses d.inflectionHypotheses })
            st.dictionaryEntries }) := by
  refine ⟨areInflectionHyphothesesEqual_eq_hypSetEq, mergeInflectionHypotheses_eq_with_hypSetEq, ?_, ?_, ?_⟩
  · intro m d st e hmem hnl
    refine ⟨?_, rfl⟩
    simp only [processDatabaseEntry, hmem, hnl, Bool.false_eq_true, if_false]
  · intro m d st e ex hmem hfind hlt
    simp only [processDatabaseEntry, hmem, if_true, hfind]
    rw [if_neg (by omega)]
  · intro m d st e ex hmem hfind hge
    simp only [processDatabaseEntry, hmem, if_true, hfind]
    rw [if_pos hge]

/-- C2 witness: the amended characterisations applied at concrete
inputs. -/
theorem C2_witness :
    areInflectionHyphothesesEqual ["past"] ["past", "past"] = hypSetEq ["past"] ["past", "past"] ∧
    processDatabaseEntry [] exampleDeinflection ⟨0, [], []⟩ prefixMatchDatabaseEntry =
      { (⟨0, [], []⟩ : FindTermsState) with
        dictionaryEntries := [] ++
          [createTermDictionaryEntryFromDatabaseEntry prefixMatchDatabaseEntry
            exampleDeinflection.originalText exampleDeinflection.transformedText
            exampleDeinflection.deinflectedText exampleDeinflection.inflectionHypotheses true []],
        ids := [] ++ [prefixMatchDatabaseEntry.id] } :=
  ⟨C2_amended.1 ["past"] ["past", "past"],
   (C2_amended.2.2.1 [] exampleDeinflection ⟨0, [], []⟩ prefixMatchDatabaseEntry rfl rfl).1⟩

/-! ## C4: originalTextLength -/

theorem processDatabaseEntry_originalTextLength (m : List (String × DictionaryInfo)) (d : Deinflection) (st : FindTermsState) (e : DatabaseEntry) :
    (processDatabaseEntry m d st e).originalTextLength = st.originalTextLength := by
  simp only [processDatabaseEntry]
  repeat' split
  all_goals rfl

theorem foldl_processDatabaseEntry_originalTextLength (m : List (String × DictionaryInfo)) (d : Deinflection) (es : List DatabaseEntry) (st : FindTermsState) :
    (es.foldl (processDatabaseEntry m d) st).originalTextLength = st.originalTextLength := by
  induction es generalizing st with
  | nil => rfl
  | cons e es ih => rw [List.foldl_cons, ih, processDatabaseEntry_originalTextLength]

theorem processDeinflection_originalTextLength (m : List (String × DictionaryInfo)) (st : FindTermsState) (d : Deinflection) :
    (processDeinflection m st d).originalTextLength =
      if !d.databaseEntries.isEmpty && !d.isDictionaryDeinflection then
        max st.originalTextLength d.originalText.length
      else st.originalTextLength := by
  unfold processDeinflection
  by_cases hempty : d.databaseEntries = []
  · simp [hempty]
  · have hlen : (d.databaseEntries.length == 0) = false := by
      simp [List.length_eq_zero, hempty]
    rw [if_neg (by simp [hlen])]
    rw [foldl_processDatabaseEntry_originalTextLength]
    by_cases hdict : d.isDictionaryDeinflection
    · simp [hdict, hempty]
    · simp [hdict, hempty]

theorem foldl_processDeinflection_originalTextLength (m : List (String × DictionaryInfo)) (ds : List Deinflection) (st : FindTermsState) :
    (ds.foldl (processDeinflection m) st).originalTextLength =
      ((ds.filter (fun d => !d.databaseEntries.isEmpty && !d.isDictionaryDeinflection)).map
        (fun d => d.originalText.length)).foldl max st.originalTextLength := by
  induction ds generalizing st with
  | nil => rfl
  | cons d ds ih =>
    rw [List.foldl_cons, ih, processDeinflection_originalTextLength, List.filter_cons]
    by_cases h : (!d.databaseEntries.isEmpty && !d.isDictionaryDeinflection) = true
    · rw [if_pos h, if_pos h, List.map_cons, List.foldl_cons]
    · rw [if_neg h, if_neg h]

theorem foldl_max_getD (l : List Nat) (a : Nat) :
    l.foldl max a = max a ((l.max?).getD 0) := by
  induction l generalizing a with
  | nil => simp
  | cons x xs ih =>
    rw [List.foldl_cons, ih, List.max?_cons]
    cases hm : xs.max? with
    | none => simp
    | some v => simp [Nat.max_assoc]

/-- C4 (confirmed): the `originalTextLength` returned by
`_findTermsInternal` is the maximum `originalText` length over
deinflection candidates with at least one database hit that are not
dictionary-deinflection synthesized, and 0 when the filtered text is empty
or no candidate qualifies. -/
theorem C4_originalTextLength (text : String) (m : List (String × DictionaryInfo)) (ds : List Deinflection) :
    (findTermsInternal text m ds).2 =
      if text.length = 0 then 0
      else (((ds.filter (fun d => !d.databaseEntries.isEmpty && !d.isDictionaryDeinflection)).map
              (fun d => d.originalText.length)).max?).getD 0 := by
  unfold findTermsInternal
  by_cases h : text.length = 0
  · simp [h]
  · rw [if_neg (by simpa using h), if_neg h]
    show (ds.foldl (processDeinflection m) ⟨0, [], []⟩).originalTextLength = _
    rw [foldl_processDeinflection_originalTextLength]
    show List.foldl max (0 : Nat) _ = _
    rw [foldl_max_getD]
    exact Nat.zero_max _

/-! ## C3: sourceTermExactMatchCount -/

/-- C3 counterexample: a database entry whose `matchSource` is `term`
through a prefix match (`term = "foobar"`, looked-up text `"foo"`) yields a
single-database-entry term dictionary entry with
`sourceTermExactMatchCount = 0` although its one headword has a primary
source with `matchSource = term` — so the count does not equal the number
of such headwords for every entry produced by `find_terms`. -/
theorem C3_counterexample :
    (createTermDictionaryEntryFromDatabaseEntry prefixMatchDatabaseEntry "foo" "foo" "foo" [] true []).sourceTermExactMatchCount = 0 ∧
    ((createTermDictionaryEntryFromDatabaseEntry prefixMatchDatabaseEntry "foo" "foo" "foo" [] true []).headwords.filter
      (fun hw => hw.sources.any (fun s => s.isPrimary && s.matchSource == "term"))).length = 1 := by
  decide

/-- C3 (amended): for an entry assembled from a single database entry the
count is 1 exactly when the entry is primary and the deinflected text
equals the database term (which can disagree with the number of headwords
having a primary `matchSource = term` source, e.g. under prefix matching);
for a grouped entry the count equals the number of its headwords having at
least one primary source with `matchSource = term`. -/
theorem C3_amended :
    (∀ (databaseEntry : DatabaseEntry) (originalText transformedText deinflectedText : String)
       (reasons : List InflectionHypothesis) (isPrimary : Bool) (m : List (String × DictionaryInfo)),
      (createTermDictionaryEntryFromDatabaseEntry databaseEntry originalText transformedText deinflectedText reasons isPrimary m).sourceTermExactMatchCount =
        if isPrimary = true ∧ deinflectedText = databaseEntry.term then 1 else 0) ∧
    (∀ (entries : List (TermDictionaryEntry TagGroup)) (chk : Bool),
      (createGroupedDictionaryEntry entries chk).sourceTermExactMatchCount =
        ((createGroupedDictionaryEntry entries chk).headwords.filter
          (fun hw => hw.sources.any (fun s => s.isPrimary && s.matchSource == "term"))).length) := by
  constructor
  · intro databaseEntry originalText transformedText deinflectedText reasons isPrimary m
    rfl
  · intro entries chk
    simp only [createGroupedDictionaryEntry, createTermDictionaryEntry]
    rw [List.countP_eq_length_filter]

/-! ## C9: grouped inflection hypotheses -/

theorem groupedAccumStep_inflectionHypotheses (chk : Bool) (st : GroupedAccum) (p : TermDictionaryEntry TagGroup × List Nat) :
    (groupedAccumStep chk st p).inflectionHypotheses =
      selectInflectionHypotheses st.inflectionHypotheses p.1 := by
  rcases p with ⟨e, im⟩
  by_cases hp : e.isPrimary <;> by_cases hc : chk <;>
    simp [groupedAccumStep, selectInflectionHypotheses, hp, hc]

theorem foldl_groupedAccumStep_inflectionHypotheses (chk : Bool) (pairs : List (TermDictionaryEntry TagGroup × List Nat)) (st : GroupedAccum) :
    (pairs.foldl (groupedAccumStep chk) st).inflectionHypotheses =
      (pairs.map Prod.fst).foldl selectInflectionHypotheses st.inflectionHypotheses := by
  induction pairs generalizing st with
  | nil => rfl
  | cons p ps ih =>
    rw [List.foldl_cons, ih, List.map_cons, List.foldl_cons,
      groupedAccumStep_inflectionHypotheses]

theorem foldl_groupedHeadwordStep_fst (entries : List (TermDictionaryEntry TagGroup)) (m : List ((String × String) × TermHeadword TagGroup)) (acc : List (TermDictionaryEntry TagGroup × List Nat)) :
    ((entries.foldl groupedHeadwordStep (m, acc)).2).map Prod.fst = acc.map Prod.fst ++ entries := by
  induction entries generalizing m acc with
  | nil => simp
  | cons e rest ih =>
    rw [List.foldl_cons]
    show ((rest.foldl groupedHeadwordStep (_, acc ++ [(e, _)])).2).map Prod.fst = _
    rw [ih]
    simp

theorem firstMinBy_isSome (hs : List (List InflectionHypothesis)) (hne : hs ≠ []) :
    (firstMinBy hs).isSome = true := by
  cases hs with
  | nil => exact absurd rfl hne
  | cons x xs =>
    rw [firstMinBy]
    cases hx : firstMinBy xs
    · rfl
    · dsimp only
      split <;> rfl

theorem firstMinBy_mem (hs : List (List InflectionHypothesis)) :
    ∀ m, firstMinBy hs = some m → m ∈ hs := by
  induction hs with
  | nil => intro m h; simp [firstMinBy] at h
  | cons x xs ih =>
    intro m h
    rw [firstMinBy] at h
    cases hx : firstMinBy xs with
    | none =>
      rw [hx] at h
      dsimp only at h
      rw [Option.some.injEq] at h
      simp [← h]
    | some v =>
      rw [hx] at h
      dsimp only at h
      by_cases hv : v.length < x.length
      · rw [if_pos hv, Option.some.injEq] at h
        subst h
        exact List.mem_cons_of_mem _ (ih _ hx)
      · rw [if_neg hv, Option.some.injEq] at h
        simp [← h]

theorem firstMinBy_min (hs : List (List InflectionHypothesis)) :
    ∀ m, firstMinBy hs = some m → ∀ x ∈ hs, m.length ≤ x.length := by
  induction hs with
  | nil => intro m h; simp [firstMinBy] at h
  | cons x xs ih =>
    intro m h
    rw [firstMinBy] at h
    cases hx : firstMinBy xs with
    | none =>
      rw [hx] at h
      dsimp only at h
      rw [Option.some.injEq] at h
      have hxs : xs = [] := by
        by_contra hne
        have hsome := firstMinBy_isSome xs hne
        rw [hx] at hsome
        simp at hsome
      subst hxs
      simp [← h]
    | some v =>
      rw [hx] at h
      dsimp only at h
      by_cases hv : v.length < x.length
      · rw [if_pos hv, Option.some.injEq] at h
        subst h
        intro y hy
        rcases List.mem_cons.mp hy with rfl | hy
        · omega
        · exact ih _ hx y hy
      · rw [if_neg hv, Option.some.injEq] at h
        subst h
        intro y hy
        rcases List.mem_cons.mp hy with rfl | hy
        · omega
        · have := ih v hx y hy
          omega

theorem find?_congr {α : Type} (l : List α) (p q : α → Bool)
    (h : ∀ x ∈ l, p x = q x) : l.find? p = l.find? q := by
  induction l with
  | nil => rfl
  | cons x xs ih =>
    rw [List.find?_cons, List.find?_cons, h x (List.mem_cons_self x xs)]
    cases q x
    · exact ih (fun y hy => h y (List.mem_cons_of_mem _ hy))
    · rfl

theorem firstMinBy_eq_find? (hs : List (List InflectionHypothesis)) :
    firstMinBy hs = hs.find? (fun h => hs.all (fun h2 => decide (h.length ≤ h2.length))) := by
  induction hs with
  | nil => rfl
  | cons x xs ih =>
    by_cases hQ : ∀ y ∈ xs, x.length ≤ y.length
    · have hx : ((x :: xs).all (fun h2 => decide (x.length ≤ h2.length))) = true := by
        simp only [List.all_eq_true, decide_eq_true_eq]
        intro y hy
        rcases List.mem_cons.mp hy with rfl | hy
        · exact le_refl _
        · exact hQ y hy
      rw [@List.find?_cons_of_pos _ (fun h => (x :: xs).all (fun h2 => decide (h.length ≤ h2.length))) x xs hx,
        firstMinBy]
      cases hm : firstMinBy xs with
      | none => rfl
      | some m =>
        have := hQ m (firstMinBy_mem xs m hm)
        dsimp only
        rw [if_neg (by omega)]
    · push_neg at hQ
      rcases hQ with ⟨y, hy, hlt⟩
      have hx : ¬ ((x :: xs).all (fun h2 => decide (x.length ≤ h2.length))) = true := by
        intro hall
        simp only [List.all_eq_true, decide_eq_true_eq] at hall
        exact absurd (hall y (List.mem_cons_of_mem _ hy)) (by omega)
      rw [@List.find?_cons_of_neg _ (fun h => (x :: xs).all (fun h2 => decide (h.length ≤ h2.length))) x xs hx,
        firstMinBy]
      cases hm : firstMinBy xs with
      | none =>
        exfalso
        have hne : xs ≠ [] := by
          intro hnil
          subst hnil
          simp at hy
        have hsome := firstMinBy_isSome xs hne
        rw [hm] at hsome
        simp at hsome
      | some m =>
        have hmin := firstMinBy_min xs m hm
        have hmx : m.length < x.length := lt_of_le_of_lt (hmin y hy) hlt
        dsimp only
        rw [if_pos hmx, ← hm, ih]
        apply find?_congr
        intro z hz
        rw [List.all_cons]
        by_cases hzq : (xs.all (fun h2 => decide (z.length ≤ h2.length))) = true
        · have hzm : z.length ≤ m.length := by
            simp only [List.all_eq_true, decide_eq_true_eq] at hzq
            exact hzq m (firstMinBy_mem xs m hm)
          rw [hzq, Bool.and_true, decide_eq_true (by omega : z.length ≤ x.length)]
        · have hzf : (xs.all (fun h2 => decide (z.length ≤ h2.length))) = false := by
            simpa using hzq
          rw [hzf, Bool.and_false]

theorem firstMinBy_cons_cons (c h : List InflectionHypothesis) (hs : List (List InflectionHypothesis)) :
    firstMinBy (c :: h :: hs) = firstMinBy ((if h.length < c.length then h else c) :: hs) := by
  by_cases h1 : h.length < c.length
  · rw [if_pos h1]
    rw [show firstMinBy (c :: h :: hs) =
        (match firstMinBy (h :: hs) with
          | none => some c
          | some m => if m.length < c.length then some m else some c) from rfl]
    cases hm : firstMinBy (h :: hs) with
    | none =>
      exfalso
      have hsome := firstMinBy_isSome (h :: hs) (by simp)
      rw [hm] at hsome
      simp at hsome
    | some m1 =>
      have hle := firstMinBy_min (h :: hs) m1 hm h (List.mem_cons_self h hs)
      dsimp only
      rw [if_pos (by omega : m1.length < c.length)]
  · rw [if_neg h1]
    rw [show firstMinBy (c :: h :: hs) =
        (match firstMinBy (h :: hs) with
          | none => some c
          | some m => if m.length < c.length then some m else some c) from rfl]
    rw [show firstMinBy (c :: hs) =
        (match firstMinBy hs with
          | none => some c
          | some m => if m.length < c.length then some m else some c) from rfl]
    rw [show firstMinBy (h :: hs) =
        (match firstMinBy hs with
          | none => some h
          | some m => if m.length < h.length then some m else some h) from rfl]
    cases hm : firstMinBy hs with
    | none =>
      dsimp only
      rw [if_neg h1]
    | some m =>
      dsimp only
      by_cases hmh : m.length < h.length
      · rw [if_pos hmh]
      · rw [if_neg hmh]
        dsimp only
        rw [if_neg h1, if_neg (by omega : ¬ m.length < c.length)]

theorem foldl_selectInflectionHypotheses_some (l : List (TermDictionaryEntry TagGroup)) (c : List InflectionHypothesis) :
    l.foldl selectInflectionHypotheses (some c) =
      firstMinBy (c :: (l.filter (fun e => e.isPrimary)).map (fun e => e.inflectionHypotheses)) := by
  induction l generalizing c with
  | nil => rw [firstMinBy]; rfl
  | cons e rest ih =>
    rw [List.foldl_cons, List.filter_cons]
    by_cases hp : e.isPrimary
    · rw [if_pos (by simpa using hp), List.map_cons, firstMinBy_cons_cons]
      have hsel : selectInflectionHypotheses (some c) e =
          some (if e.inflectionHypotheses.length < c.length then e.inflectionHypotheses else c) := by
        simp only [selectInflectionHypotheses, hp, if_true]
        split_ifs <;> rfl
      rw [hsel, ih]
    · rw [if_neg (by simpa using hp)]
      have hsel : selectInflectionHypotheses (some c) e = some c := by
        simp [selectInflectionHypotheses, hp]
      rw [hsel, ih]

theorem foldl_selectInflectionHypotheses_none (l : List (TermDictionaryEntry TagGroup)) :
    l.foldl selectInflectionHypotheses none =
      firstMinBy ((l.filter (fun e => e.isPrimary)).map (fun e => e.inflectionHypotheses)) := by
  induction l with
  | nil => rfl
  | cons e rest ih =>
    rw [List.foldl_cons, List.filter_cons]
    by_cases hp : e.isPrimary
    · rw [if_pos (by simpa using hp), List.map_cons]
      have hsel : selectInflectionHypotheses none e = some e.inflectionHypotheses := by
        simp [selectInflectionHypotheses, hp]
      rw [hsel, foldl_selectInflectionHypotheses_some]
    · rw [if_neg (by simpa using hp)]
      have hsel : selectInflectionHypotheses none e = none := by
        simp [selectInflectionHypotheses, hp]
      rw [hsel, ih]

/-- C9 (confirmed): the inflection hypotheses of a grouped entry are those
of the first-seen primary member with the minimal hypotheses-list length
(ties keep the first seen); non-primary members are ignored, and with no
primary member the result is the empty list. -/
theorem C9_groupedInflectionHypotheses (entries : List (TermDictionaryEntry TagGroup)) (chk : Bool) :
    (createGroupedDictionaryEntry entries chk).inflectionHypotheses =
      (((entries.filter (fun e => e.isPrimary)).map (fun e => e.inflectionHypotheses)).find?
        (fun h => ((entries.filter (fun e => e.isPrimary)).map (fun e => e.inflectionHypotheses)).all
          (fun h2 => decide (h.length ≤ h2.length)))).getD [] := by
  simp only [createGroupedDictionaryEntry, createTermDictionaryEntry]
  rw [foldl_groupedAccumStep_inflectionHypotheses]
  rw [show ((entries.foldl groupedHeadwordStep ([], [])).2).map Prod.fst = entries by
    simpa using foldl_groupedHeadwordStep_fst entries [] []]
  rw [foldl_selectInflectionHypotheses_none, firstMinBy_eq_find?]

/-! ## C6: sort-frequency computation -/

theorem int_min?_eq_some_iff {a : Int} {xs : List Int} :
    xs.min? = some a ↔ a ∈ xs ∧ ∀ b ∈ xs, a ≤ b := by
  haveI : Std.Antisymm (fun (x1 x2 : Int) => x1 ≤ x2) := ⟨fun h1 h2 => le_antisymm h1 h2⟩
  exact List.min?_eq_some_iff (fun _ => le_refl _) min_choice (fun _ _ _ => le_min_iff)

theorem int_max?_eq_some_iff {a : Int} {xs : List Int} :
    xs.max? = some a ↔ a ∈ xs ∧ ∀ b ∈ xs, b ≤ a := by
  haveI : Std.Antisymm (fun (x1 x2 : Int) => x1 ≤ x2) := ⟨fun h1 h2 => le_antisymm h1 h2⟩
  exact List.max?_eq_some_iff (fun _ => le_refl _) max_choice (fun _ _ _ => max_le_iff)

theorem foldl_min_int (l : List Int) (a : Int) :
    l.foldl min a = (l.min?).elim a (min a) := by
  induction l generalizing a with
  | nil => rfl
  | cons x xs ih =>
    rw [List.foldl_cons, ih, List.min?_cons]
    cases hm : xs.min? with
    | none => rfl
    | some m => simp [min_assoc]

theorem foldl_max_int (l : List Int) (a : Int) :
    l.foldl max a = (l.max?).elim a (max a) := by
  induction l generalizing a with
  | nil => rfl
  | cons x xs ih =>
    rw [List.foldl_cons, ih, List.max?_cons]
    cases hm : xs.max? with
    | none => rfl
    | some m => simp [max_assoc]

theorem frequencyOrderOf_foldl_spec (ascending : Bool) (fs : List Int)
    (hb : ∀ x ∈ fs, NumberMinSafeInteger ≤ x ∧ x ≤ NumberMaxSafeInteger) :
    frequencyOrderOf ascending (fs.foldl min NumberMaxSafeInteger) (fs.foldl max NumberMinSafeInteger) =
      specFrequencyOrder ascending fs := by
  cases fs with
  | nil =>
    rw [frequencyOrderOf, if_neg (by decide)]
    rfl
  | cons x xs =>
    have hmin : (x :: xs).min? = some (xs.foldl min x) := by
      rw [List.min?_cons, foldl_min_int]
    have hmax : (x :: xs).max? = some (xs.foldl max x) := by
      rw [List.max?_cons, foldl_max_int]
    obtain ⟨hmn_mem, hmn_le⟩ := int_min?_eq_some_iff.mp hmin
    obtain ⟨hmx_mem, hmx_ge⟩ := int_max?_eq_some_iff.mp hmax
    have h1 : (x :: xs).foldl min NumberMaxSafeInteger = xs.foldl min x := by
      rw [foldl_min_int, hmin]
      exact min_eq_right (hb _ hmn_mem).2
    have h2 : (x :: xs).foldl max NumberMinSafeInteger = xs.foldl max x := by
      rw [foldl_max_int, hmax]
      exact max_eq_right (hb _ hmx_mem).1
    rw [h1, h2, frequencyOrderOf, if_pos (hmn_le _ hmx_mem)]
    rw [specFrequencyOrder, hmin, hmax]

theorem scan_fst (dictionary : String) (l : List TermFrequency) (acc : List (Nat × Int) × Int × Int) :
    (l.foldl (sortFrequencyScanStep dictionary) acc).1 =
      (l.filter (fun it => it.dictionary == dictionary)).foldl
        (fun mp it => jsMapSet mp it.headwordIndex it.frequency) acc.1 := by
  induction l generalizing acc with
  | nil => rfl
  | cons it l ih =>
    rw [List.foldl_cons, ih, List.filter_cons]
    by_cases h : (it.dictionary == dictionary) = true
    · rw [if_pos h, List.foldl_cons]
      simp [sortFrequencyScanStep, h]
    · rw [if_neg h]
      simp [sortFrequencyScanStep, h]

theorem scan_min (dictionary : String) (l : List TermFrequency) (acc : List (Nat × Int) × Int × Int) :
    (l.foldl (sortFrequencyScanStep dictionary) acc).2.1 =
      ((l.filter (fun it => it.dictionary == dictionary)).map (fun it => it.frequency)).foldl min acc.2.1 := by
  induction l generalizing acc with
  | nil => rfl
  | cons it l ih =>
    rw [List.foldl_cons, ih, List.filter_cons]
    by_cases h : (it.dictionary == dictionary) = true
    · rw [if_pos h, List.map_cons, List.foldl_cons]
      simp [sortFrequencyScanStep, h]
    · rw [if_neg h]
      simp [sortFrequencyScanStep, h]

theorem scan_max (dictionary : String) (l : List TermFrequency) (acc : List (Nat × Int) × Int × Int) :
    (l.foldl (sortFrequencyScanStep dictionary) acc).2.2 =
      ((l.filter (fun it => it.dictionary == dictionary)).map (fun it => it.frequency)).foldl max acc.2.2 := by
  induction l generalizing acc with
  | nil => rfl
  | cons it l ih =>
    rw [List.foldl_cons, ih, List.filter_cons]
    by_cases h : (it.dictionary == dictionary) = true
    · rw [if_pos h, List.map_cons, List.foldl_cons]
      simp [sortFrequencyScanStep, h]
    · rw [if_neg h]
      simp [sortFrequencyScanStep, h]

theorem jsMapGet_nil (k' : Nat) : jsMapGet ([] : List (Nat × Int)) k' = none := rfl

theorem jsMapGet_cons (q : Nat × Int) (rest : List (Nat × Int)) (k' : Nat) :
    jsMapGet (q :: rest) k' = if q.1 = k' then some q.2 else jsMapGet rest k' := by
  by_cases h : q.1 = k'
  · simp [jsMapGet, List.find?_cons, h]
  · simp [jsMapGet, List.find?_cons, h]

theorem jsMapGet_jsMapSet (m : List (Nat × Int)) (k k' : Nat) (v : Int) :
    jsMapGet (jsMapSet m k v) k' = if k' = k then some v else jsMapGet m k' := by
  induction m with
  | nil =>
    rw [show jsMapSet [] k v = [(k, v)] from rfl, jsMapGet_cons]
    by_cases h : k' = k
    · rw [if_pos h, if_pos (show (k, v).1 = k' from h.symm)]
    · rw [if_neg h, if_neg (show ¬ (k, v).1 = k' from fun hc => h hc.symm), jsMapGet_nil]
  | cons p ps ih =>
    by_cases hp : p.1 = k
    · have hset : jsMapSet (p :: ps) k v = (p.1, v) :: ps := by
        rw [jsMapSet, if_pos (by simp [List.find?_cons, hp]), updateFirst,
          if_pos (by simp [hp])]
      rw [hset, jsMapGet_cons, jsMapGet_cons]
      by_cases h : k' = k
      · rw [if_pos (show (p.1, v).1 = k' from hp.trans h.symm), if_pos h]
      · rw [if_neg (show ¬ (p.1, v).1 = k' from fun hc => h ((hp.symm.trans hc).symm)),
          if_neg h, if_neg (fun hc : p.1 = k' => h ((hp.symm.trans hc).symm))]
    · have hfind : (p :: ps).find? (fun q => q.1 == k) = ps.find? (fun q => q.1 == k) :=
        List.find?_cons_of_neg _ (by simp [hp])
      by_cases hps : ((ps.find? (fun q => q.1 == k)).isSome) = true
      · have hset : jsMapSet (p :: ps) k v =
            p :: updateFirst (fun q => q.1 == k) (fun q => (q.1, v)) ps := by
          rw [jsMapSet, hfind, if_pos hps, updateFirst, if_neg (by simp [hp])]
        have hups : updateFirst (fun q => q.1 == k) (fun q => (q.1, v)) ps = jsMapSet ps k v := by
          rw [jsMapSet, if_pos hps]
        rw [hset, jsMapGet_cons, hups, ih, jsMapGet_cons]
        by_cases h : k' = k
        · rw [if_neg (fun hc : p.1 = k' => hp (hc.trans h)), if_pos h, if_pos h]
        · rw [if_neg h, if_neg h]
      · have hset : jsMapSet (p :: ps) k v = p :: (ps ++ [(k, v)]) := by
          rw [jsMapSet, hfind, if_neg hps]
          rfl
        have htail : ps ++ [(k, v)] = jsMapSet ps k v := by
          rw [jsMapSet, if_neg hps]
        rw [hset, jsMapGet_cons, htail, ih, jsMapGet_cons]
        by_cases h : k' = k
        · rw [if_neg (fun hc : p.1 = k' => hp (hc.trans h)), if_pos h, if_pos h]
        · rw [if_neg h, if_neg h]

theorem jsMapGet_foldl_jsMapSet (l : List TermFrequency) (mp : List (Nat × Int)) (k : Nat) :
    jsMapGet (l.foldl (fun m it => jsMapSet m it.headwordIndex it.frequency) mp) k =
      match (l.filter (fun it => it.headwordIndex == k)).getLast? with
      | some it => some it.frequency
      | none => jsMapGet mp k := by
  induction l using List.reverseRecOn with
  | nil => rfl
  | append_singleton l x ih =>
    rw [List.foldl_append, List.foldl_cons, List.foldl_nil, jsMapGet_jsMapSet,
      List.filter_append]
    by_cases hx : (x.headwordIndex == k) = true
    · rw [show List.filter (fun it => it.headwordIndex == k) [x] = [x] from by
        simp [List.filter, hx]]
      rw [List.getLast?_concat, if_pos (by rw [beq_iff_eq] at hx; exact hx.symm)]
    · rw [show List.filter (fun it => it.headwordIndex == k) [x] = [] from by
        simp only [List.filter]
        rw [show (x.headwordIndex == k) = false from by simpa using hx]]
      rw [List.append_nil, if_neg (by
        intro hc
        apply hx
        rw [hc]
        exact beq_self_eq_true _), ih]

theorem jsMapGet_scan_eq_lastHeadwordFrequency {τ : Type} (dictionary : String) (e : TermDictionaryEntry τ) (i : Nat) :
    jsMapGet ((e.frequencies.foldl (sortFrequencyScanStep dictionary)
        ([], NumberMaxSafeInteger, NumberMinSafeInteger)).1) i =
      lastHeadwordFrequency dictionary e i := by
  rw [scan_fst, jsMapGet_foldl_jsMapSet, lastHeadwordFrequency, List.getLast?_map,
    List.filter_filter]
  rw [List.filter_congr (fun it _ => by
    show ((it.headwordIndex == i) && (it.dictionary == dictionary)) =
      ((it.dictionary == dictionary) && (it.headwordIndex == i))
    exact Bool.and_comm _ _)]
  cases hlast : (e.frequencies.filter
      (fun it => it.dictionary == dictionary && it.headwordIndex == i)).getLast? with
  | none => rfl
  | some it => rfl

theorem foldl_definitionFrequencyScanStep (fm : List (Nat × Int)) (idxs : List Nat) (acc : Int × Int) :
    idxs.foldl (definitionFrequencyScanStep fm) acc =
      ((idxs.filterMap (jsMapGet fm)).foldl min acc.1,
       (idxs.filterMap (jsMapGet fm)).foldl max acc.2) := by
  induction idxs generalizing acc with
  | nil => rfl
  | cons i rest ih =>
    rw [List.foldl_cons, ih, List.filterMap_cons]
    cases hg : jsMapGet fm i with
    | none => rw [definitionFrequencyScanStep, hg]
    | some f =>
      rw [definitionFrequencyScanStep, hg]
      rfl

theorem lastHeadwordFrequency_bound {τ : Type} (dictionary : String) (e : TermDictionaryEntry τ)
    (hb : ∀ it ∈ e.frequencies, NumberMinSafeInteger ≤ it.frequency ∧ it.frequency ≤ NumberMaxSafeInteger)
    (i : Nat) (v : Int) (h : lastHeadwordFrequency dictionary e i = some v) :
    NumberMinSafeInteger ≤ v ∧ v ≤ NumberMaxSafeInteger := by
  rw [lastHeadwordFrequency] at h
  have hv := List.mem_of_mem_getLast? h
  rw [List.mem_map] at hv
  obtain ⟨it, hit, hfr⟩ := hv
  have := List.mem_of_mem_filter hit
  exact hfr ▸ hb it this

/-- C6 counterexample: an entry with one headword and two frequencies
(3 then 5) from the sort dictionary for headword index 0.  The claim
computes the definition's frequency order as the minimum (3) over its
headword's frequencies, but the code's frequency map keeps only the last
write per headword index, so the definition receives 5. -/
theorem C6_counterexample :
    ((updateSortFrequenciesEntry "D" true exampleFrequencyEntry).definitions.map
      (fun df => df.frequencyOrder)) = [5] ∧
    (updateSortFrequenciesEntry "D" true exampleFrequencyEntry).frequencyOrder = 3 ∧
    specFrequencyOrder true ((exampleFrequencyEntry.frequencies.filter
      (fun it => it.dictionary == "D" && it.headwordIndex == 0)).map (fun it => it.frequency)) = 3 ∧
    (5 : Int) ≠ 3 := by
  refine ⟨?_, ?_, ?_, by decide⟩ <;> decide

/-- C6 (amended): the entry-level `frequencyOrder` is as claimed — the
minimum (ascending) or negated maximum (descending) over the sort
dictionary's frequencies, with defaults `MAX_SAFE_INTEGER`/`0` when there
are none (provided all frequencies are JS-safe integers).  Each
definition, however, receives the computation applied not to all of its
headwords' frequencies but to the *last-listed* frequency per headword
index (the code's frequency map retains only the final write). -/
theorem C6_amended (τ : Type) (dictionary : String) (ascending : Bool) (e : TermDictionaryEntry τ)
    (hb : ∀ it ∈ e.frequencies, NumberMinSafeInteger ≤ it.frequency ∧ it.frequency ≤ NumberMaxSafeInteger) :
    (updateSortFrequenciesEntry dictionary ascending e).frequencyOrder =
      specFrequencyOrder ascending (sortFrequencyValues dictionary e) ∧
    (updateSortFrequenciesEntry dictionary ascending e).definitions =
      e.definitions.map (fun df =>
        { df with frequencyOrder := specFrequencyOrder ascending (df.headwordIndices.filterMap (lastHeadwordFrequency dictionary e)) }) := by
  constructor
  · show frequencyOrderOf ascending
      (e.frequencies.foldl (sortFrequencyScanStep dictionary) ([], NumberMaxSafeInteger, NumberMinSafeInteger)).2.1
      (e.frequencies.foldl (sortFrequencyScanStep dictionary) ([], NumberMaxSafeInteger, NumberMinSafeInteger)).2.2 = _
    rw [scan_min, scan_max]
    apply frequencyOrderOf_foldl_spec
    intro x hx
    simp only [sortFrequencyValues, List.mem_map] at hx
    obtain ⟨it, hit, hfr⟩ := hx
    exact hfr ▸ hb it (List.mem_of_mem_filter hit)
  · show e.definitions.map _ = e.definitions.map _
    apply List.map_congr_left
    intro df _
    have hmapget : jsMapGet ((e.frequencies.foldl (sortFrequencyScanStep dictionary)
        ([], NumberMaxSafeInteger, NumberMinSafeInteger)).1) =
        lastHeadwordFrequency dictionary e :=
      funext fun i => jsMapGet_scan_eq_lastHeadwordFrequency dictionary e i
    rw [foldl_definitionFrequencyScanStep, hmapget]
    have hbnd : ∀ x ∈ df.headwordIndices.filterMap (lastHeadwordFrequency dictionary e),
        NumberMinSafeInteger ≤ x ∧ x ≤ NumberMaxSafeInteger := by
      intro x hx
      rw [List.mem_filterMap] at hx
      obtain ⟨i, _, hlast⟩ := hx
      exact lastHeadwordFrequency_bound dictionary e hb i x hlast
    have hord := frequencyOrderOf_foldl_spec ascending
      (df.headwordIndices.filterMap (lastHeadwordFrequency dictionary e)) hbnd
    dsimp only
    rw [hord]

/-- C6 witness: the amended characterisation applied to the concrete
two-frequency entry. -/
theorem C6_witness :
    (updateSortFrequenciesEntry "D" true exampleFrequencyEntry).frequencyOrder =
      specFrequencyOrder true (sortFrequencyValues "D" exampleFrequencyEntry) ∧
    (updateSortFrequenciesEntry "D" true exampleFrequencyEntry).definitions =
      exampleFrequencyEntry.definitions.map (fun df =>
        { df with frequencyOrder := specFrequencyOrder true (df.headwordIndices.filterMap (lastHeadwordFrequency "D" exampleFrequencyEntry)) }) :=
  C6_amended TagGroup "D" true exampleFrequencyEntry (by decide)

/-! ## C1: the term dictionary entry sort -/

theorem ordering_then_assoc (o1 o2 o3 : Ordering) :
    (o1.then o2).then o3 = o1.then (o2.then o3) := by
  cases o1 <;> rfl

theorem ordOfInt_eq_eq_iff (i : Int) : ordOfInt i = .eq ↔ i = 0 := by
  rw [ordOfInt]
  split_ifs with h1 h2
  · simp
    omega
  · simp [h2]
  · simp
    omega

theorem ordOfInt_ne_gt_iff (i : Int) : ordOfInt i ≠ .gt ↔ i ≤ 0 := by
  rw [ordOfInt]
  split_ifs with h1 h2 <;> simp <;> omega

theorem ordOfInt_sub_int (a b : Int) : ordOfInt (a - b) = compare a b := by
  rcases lt_trichotomy a b with h | h | h
  · rw [compare_lt_iff_lt.mpr h, ordOfInt, if_pos (by omega)]
  · subst h
    rw [compare_eq_iff_eq.mpr rfl, ordOfInt, if_neg (by omega), if_pos (by omega)]
  · rw [compare_gt_iff_gt.mpr h, ordOfInt, if_neg (by omega), if_neg (by omega)]

theorem compare_natCast_int (a b : Nat) : compare ((a : Int)) ((b : Int)) = compare a b := by
  rcases Nat.lt_trichotomy a b with h | h | h
  · rw [compare_lt_iff_lt.mpr h, compare_lt_iff_lt.mpr (by exact_mod_cast h)]
  · subst h
    rw [compare_eq_iff_eq.mpr rfl, compare_eq_iff_eq.mpr rfl]
  · rw [compare_gt_iff_gt.mpr h, compare_gt_iff_gt.mpr (by exact_mod_cast h)]

theorem ordOfInt_natCast_sub (a b : Nat) : ordOfInt ((a : Int) - (b : Int)) = compare a b := by
  rw [ordOfInt_sub_int, compare_natCast_int]

theorem ordOfInt_ite_chain (x r : Int) :
    ordOfInt (if x ≠ 0 then x else r) = (ordOfInt x).then (ordOfInt r) := by
  by_cases hx : x = 0
  · rw [if_neg (by simp [hx]), hx]
    rfl
  · rw [if_pos hx]
    rcases lt_trichotomy x 0 with h | h | h
    · rw [show ordOfInt x = .lt from by rw [ordOfInt, if_pos h]]
      rfl
    · exact absurd h hx
    · rw [show ordOfInt x = .gt from by rw [ordOfInt, if_neg (by omega), if_neg (by omega)]]
      rfl

theorem compareTermsOfHeadwords_spec {τ : Type} (collate : String → String → Int) :
    ∀ (l1 l2 : List (TermHeadword τ)),
      ordOfInt (compareTermsOfHeadwords collate l1 l2) = specHeadwordTermCompare collate l1 l2 := by
  intro l1
  induction l1 with
  | nil =>
    intro l2
    cases l2 <;> rfl
  | cons h1 t1 ih =>
    intro l2
    cases l2 with
    | nil => rfl
    | cons h2 t2 =>
      show ordOfInt (if ((h2.term.length : Int) - (h1.term.length : Int)) ≠ 0 then _ else
        (if collate h1.term h2.term ≠ 0 then _ else compareTermsOfHeadwords collate t1 t2)) = _
      rw [ordOfInt_ite_chain, ordOfInt_ite_chain, ordOfInt_natCast_sub, ih t2,
        specHeadwordTermCompare, ordering_then_assoc]

theorem sortTermDictionaryEntriesCompare_spec {τ : Type} (collate : String → String → Int)
    (v1 v2 : TermDictionaryEntry τ) :
    ordOfInt (sortTermDictionaryEntriesCompare collate v1 v2) =
      sortTermDictionaryEntriesSpecCompare collate v1 v2 := by
  show ordOfInt (if _ ≠ (0 : Int) then _ else _) = _
  rw [sortTermDictionaryEntriesSpecCompare]
  simp only [sortTermDictionaryEntriesCompare, ordOfInt_ite_chain, ordOfInt_natCast_sub,
    ordOfInt_sub_int, compareTermsOfHeadwords_spec, compare_natCast_int]

/-- C1 counterexample: three entries, tied on every numeric key, whose
headword-term comparison inspects only the common prefix of the headword
lists.  The comparator cycles (`u1 < u2 < u3 < u1`), both as the code
computes it and under the claimed key order, so no output of the sort — in
particular not the code's — is ordered by the claimed keys. -/
theorem C1_counterexample :
    sortTermDictionaryEntriesCompare collate0 entryU1 entryU2 < 0 ∧
    sortTermDictionaryEntriesCompare collate0 entryU2 entryU3 < 0 ∧
    sortTermDictionaryEntriesCompare collate0 entryU3 entryU1 < 0 ∧
    sortTermDictionaryEntriesSpecCompare collate0 entryU1 entryU2 = .lt ∧
    sortTermDictionaryEntriesSpecCompare collate0 entryU2 entryU3 = .lt ∧
    sortTermDictionaryEntriesSpecCompare collate0 entryU3 entryU1 = .lt ∧
    ¬ (sortTermDictionaryEntries collate0 [entryU1, entryU2, entryU3]).Pairwise
        (fun a b => sortTermDictionaryEntriesSpecCompare collate0 a b ≠ .gt) := by
  refine ⟨by decide, by decide, by decide, by decide, by decide, by decide, by decide⟩

/-- C1 (amended): the final entry sort is a stable sort whose comparator
compares exactly by the claimed keys in the claimed order — descending
`maxTransformedTextLength`, ascending hypothesis count, descending
`sourceTermExactMatchCount`, ascending `frequencyOrder`, descending
`dictionaryPriority`, descending `score`, pairwise headword-term
comparison over the common prefix (descending term length, collated
ascending), descending definition count, ascending `dictionaryIndex` —
the output is a permutation of the input, and runs of comparator-ties keep
their insertion order.  Because the headword-term key inspects only the
common prefix of the two headword lists the key order is not transitive,
so the output need not be pairwise-ordered (see the counterexample). -/
theorem C1_amended (τ : Type) (collate : String → String → Int) (l : List (TermDictionaryEntry τ)) :
    (sortTermDictionaryEntries collate l).Perm l ∧
    (∀ v1 v2 : TermDictionaryEntry τ,
      ordOfInt (sortTermDictionaryEntriesCompare collate v1 v2) =
        sortTermDictionaryEntriesSpecCompare collate v1 v2) ∧
    (∀ c : List (TermDictionaryEntry τ),
      c.Pairwise (fun a b => sortTermDictionaryEntriesSpecCompare collate a b = .eq) →
      c.Sublist l →
      c.Sublist (sortTermDictionaryEntries collate l)) := by
  refine ⟨List.perm_insertionSort _ l, sortTermDictionaryEntriesCompare_spec collate, ?_⟩
  intro c hc hsub
  apply List.sublist_insertionSort ?_ hsub
  refine hc.imp ?_
  intro a b hab
  show sortTermDictionaryEntriesCompare collate a b ≤ 0
  have := sortTermDictionaryEntriesCompare_spec collate a b
  rw [hab, ordOfInt_eq_eq_iff] at this
  omega

/-- C1 witness: the amended statement applied to the concrete cycle input,
with the stability conjunct discharged on a one-element tie class. -/
theorem C1_witness :
    (sortTermDictionaryEntries collate0 [entryU1, entryU2, entryU3]).Perm [entryU1, entryU2, entryU3] ∧
    [entryU1].Sublist (sortTermDictionaryEntries collate0 [entryU1, entryU2, entryU3]) :=
  ⟨(C1_amended TagGroup collate0 [entryU1, entryU2, entryU3]).1,
   (C1_amended TagGroup collate0 [entryU1, entryU2, entryU3]).2.2 [entryU1]
     (List.pairwise_singleton _ _) (by decide)⟩

/-! ## C7: the definition sort -/

theorem lawful_then {α : Type} {f g : α → α → Ordering} (hf : LawfulOCmp f) (hg : LawfulOCmp g) :
    LawfulOCmp (fun a b => (f a b).then (g a b)) := by
  obtain ⟨hfs, hfc, hft⟩ := hf
  obtain ⟨hgs, hgc, hgt⟩ := hg
  refine ⟨?_, ?_, ?_⟩
  · intro a b
    rw [Ordering.swap_then, hfs, hgs]
  · intro a b c hab
    rw [Ordering.then_eq_eq] at hab
    dsimp only
    rw [hfc a b c hab.1, hgc a b c hab.2]
  · intro a b c hab hbc
    dsimp only at hab hbc ⊢
    rw [Ordering.then_eq_lt] at hab hbc ⊢
    rcases hab with hf1 | ⟨hf1, hg1⟩
    · rcases hbc with hf2 | ⟨hf2, hg2⟩
      · exact Or.inl (hft a b c hf1 hf2)
      · left
        have h1 : f b a = f c a := hfc b c a hf2
        have h2 : f b a = .gt := by rw [← hfs a b, hf1]; rfl
        have h3 : f c a = .gt := h1 ▸ h2
        rw [← hfs c a, h3]
        rfl
    · rcases hbc with hf2 | ⟨hf2, hg2⟩
      · left
        rw [hfc a b c hf1]
        exact hf2
      · right
        refine ⟨by rw [hfc a b c hf1]; exact hf2, hgt a b c hg1 hg2⟩

theorem lawful_of_key {α β : Type} (f : β → β → Ordering) (k : α → β)
    (hswap : ∀ x y, (f x y).swap = f y x)
    (heq : ∀ x y, f x y = .eq → x = y)
    (htrans : ∀ x y z, f x y = .lt → f y z = .lt → f x z = .lt) :
    LawfulOCmp (fun a b => f (k a) (k b)) := by
  refine ⟨fun a b => hswap _ _, ?_, fun a b c h1 h2 => htrans _ _ _ h1 h2⟩
  intro a b c hab
  dsimp only at hab ⊢
  rw [heq _ _ hab]

theorem compare_swap_linear {β : Type} [LinearOrder β] (x y : β) :
    (compare x y).swap = compare y x := by
  rcases lt_trichotomy x y with h | h | h
  · rw [compare_lt_iff_lt.mpr h, compare_gt_iff_gt.mpr h]
    rfl
  · subst h
    rw [compare_eq_iff_eq.mpr rfl]
    rfl
  · rw [compare_gt_iff_gt.mpr h, compare_lt_iff_lt.mpr h]
    rfl

theorem lawful_compare_key {α β : Type} [LinearOrder β] (k : α → β) :
    LawfulOCmp (fun a b => compare (k a) (k b)) :=
  lawful_of_key compare k (fun x y => compare_swap_linear x y)
    (fun _ _ h => compare_eq_iff_eq.mp h)
    (fun _ _ _ h1 h2 =>
      compare_lt_iff_lt.mpr (lt_trans (compare_lt_iff_lt.mp h1) (compare_lt_iff_lt.mp h2)))

theorem lawful_compare_key_desc {α β : Type} [LinearOrder β] (k : α → β) :
    LawfulOCmp (fun a b => compare (k b) (k a)) :=
  lawful_of_key (fun x y => compare y x) k (fun x y => compare_swap_linear y x)
    (fun _ _ h => (compare_eq_iff_eq.mp h).symm)
    (fun _ _ _ h1 h2 =>
      compare_lt_iff_lt.mpr (lt_trans (compare_lt_iff_lt.mp h2) (compare_lt_iff_lt.mp h1)))

theorem natListValuesCompare_swap : ∀ l1 l2 : List Nat,
    (natListValuesCompare l1 l2).swap = natListValuesCompare l2 l1 := by
  intro l1
  induction l1 with
  | nil => intro l2; cases l2 <;> rfl
  | cons a as ih =>
    intro l2
    cases l2 with
    | nil => rfl
    | cons b bs =>
      show ((compare a b).then (natListValuesCompare as bs)).swap = _
      rw [Ordering.swap_then, compare_swap_linear, ih bs]
      rfl

theorem natListValuesCompare_eq : ∀ l1 l2 : List Nat, l1.length = l2.length →
    natListValuesCompare l1 l2 = .eq → l1 = l2 := by
  intro l1
  induction l1 with
  | nil =>
    intro l2 hlen _
    cases l2 with
    | nil => rfl
    | cons b bs => simp at hlen
  | cons a as ih =>
    intro l2 hlen h
    cases l2 with
    | nil => simp at hlen
    | cons b bs =>
      rw [show natListValuesCompare (a :: as) (b :: bs) =
        (compare a b).then (natListValuesCompare as bs) from rfl, Ordering.then_eq_eq] at h
      rw [compare_eq_iff_eq.mp h.1, ih bs (by simpa using hlen) h.2]

theorem natListValuesCompare_trans : ∀ l1 l2 l3 : List Nat,
    l1.length = l2.length → l2.length = l3.length →
    natListValuesCompare l1 l2 = .lt → natListValuesCompare l2 l3 = .lt →
    natListValuesCompare l1 l3 = .lt := by
  intro l1
  induction l1 with
  | nil =>
    intro l2 l3 h12 h23 hc12 hc23
    cases l2 with
    | nil => exact absurd hc12 (by simp [natListValuesCompare])
    | cons b bs => simp at h12
  | cons a as ih =>
    intro l2 l3 h12 h23 hc12 hc23
    cases l2 with
    | nil => simp at h12
    | cons b bs =>
      cases l3 with
      | nil => simp at h23
      | cons c cs =>
        rw [show natListValuesCompare (a :: as) (b :: bs) =
          (compare a b).then (natListValuesCompare as bs) from rfl, Ordering.then_eq_lt] at hc12
        rw [show natListValuesCompare (b :: bs) (c :: cs) =
          (compare b c).then (natListValuesCompare bs cs) from rfl, Ordering.then_eq_lt] at hc23
        rw [show natListValuesCompare (a :: as) (c :: cs) =
          (compare a c).then (natListValuesCompare as cs) from rfl, Ordering.then_eq_lt]
        rcases hc12 with h1 | ⟨h1, h1'⟩ <;> rcases hc23 with h2 | ⟨h2, h2'⟩
        · rw [compare_lt_iff_lt] at h1 h2
          exact Or.inl (compare_lt_iff_lt.mpr (lt_trans h1 h2))
        · rw [compare_lt_iff_lt] at h1
          rw [compare_eq_iff_eq] at h2
          exact Or.inl (compare_lt_iff_lt.mpr (h2 ▸ h1))
        · rw [compare_eq_iff_eq] at h1
          rw [compare_lt_iff_lt] at h2
          exact Or.inl (compare_lt_iff_lt.mpr (h1 ▸ h2))
        · rw [compare_eq_iff_eq] at h1
          right
          refine ⟨by rw [compare_eq_iff_eq]; rw [compare_eq_iff_eq] at h2; exact h1.trans h2, ?_⟩
          exact ih bs cs (by simpa using h12) (by simpa using h23) h1' h2'

theorem hwIdxOrd_swap (l1 l2 : List Nat) : (hwIdxOrd l1 l2).swap = hwIdxOrd l2 l1 := by
  rw [hwIdxOrd, hwIdxOrd, Ordering.swap_then, compare_swap_linear, natListValuesCompare_swap]

theorem hwIdxOrd_eq (l1 l2 : List Nat) (h : hwIdxOrd l1 l2 = .eq) : l1 = l2 := by
  rw [hwIdxOrd, Ordering.then_eq_eq] at h
  exact natListValuesCompare_eq l1 l2 (compare_eq_iff_eq.mp h.1).symm h.2

theorem hwIdxOrd_trans (l1 l2 l3 : List Nat) (h12 : hwIdxOrd l1 l2 = .lt) (h23 : hwIdxOrd l2 l3 = .lt) :
    hwIdxOrd l1 l3 = .lt := by
  rw [hwIdxOrd, Ordering.then_eq_lt] at h12 h23
  rw [hwIdxOrd, Ordering.then_eq_lt]
  rcases h12 with h1 | ⟨h1, h1'⟩ <;> rcases h23 with h2 | ⟨h2, h2'⟩
  · rw [compare_lt_iff_lt] at h1 h2
    exact Or.inl (compare_lt_iff_lt.mpr (lt_trans h2 h1))
  · rw [compare_lt_iff_lt] at h1
    rw [compare_eq_iff_eq] at h2
    exact Or.inl (compare_lt_iff_lt.mpr (by omega))
  · rw [compare_eq_iff_eq] at h1
    rw [compare_lt_iff_lt] at h2
    exact Or.inl (compare_lt_iff_lt.mpr (by omega))
  · rw [compare_eq_iff_eq] at h1 h2
    right
    refine ⟨by rw [compare_eq_iff_eq]; omega, ?_⟩
    exact natListValuesCompare_trans l1 l2 l3 (by omega) (by omega) h1' h2'

theorem amendedDefinitionsCompare_lawful : LawfulOCmp amendedDefinitionsCompare := by
  have h7 : LawfulOCmp (fun v1 v2 : TermDefinition Tag => compare v1.index v2.index) :=
    lawful_compare_key _
  have h6 := lawful_then (lawful_compare_key_desc (fun v : TermDefinition Tag => scoreFromTags v)) h7
  have h5 := lawful_then (lawful_compare_key (fun v : TermDefinition Tag => v.dictionaryIndex)) h6
  have h4l : LawfulOCmp (fun v1 v2 : TermDefinition Tag => hwIdxOrd v1.headwordIndices v2.headwordIndices) :=
    lawful_of_key hwIdxOrd (fun v => v.headwordIndices) hwIdxOrd_swap hwIdxOrd_eq hwIdxOrd_trans
  have h4 := lawful_then h4l h5
  have h3 := lawful_then (lawful_compare_key_desc (fun v : TermDefinition Tag => v.score)) h4
  have h2 := lawful_then (lawful_compare_key_desc (fun v : TermDefinition Tag => v.dictionaryPriority)) h3
  have h1 := lawful_then (lawful_compare_key (fun v : TermDefinition Tag => v.frequencyOrder)) h2
  exact h1

theorem lawful_ne_gt_trans {α : Type} {f : α → α → Ordering} (hf : LawfulOCmp f) :
    ∀ a b c, f a b ≠ .gt → f b c ≠ .gt → f a c ≠ .gt := by
  obtain ⟨hs, hc, ht⟩ := hf
  intro a b c hab hbc
  cases h1 : f a b with
  | gt => exact absurd h1 hab
  | eq =>
    rw [hc a b c h1]
    exact hbc
  | lt =>
    cases h2 : f b c with
    | gt => exact absurd h2 hbc
    | lt =>
      rw [ht a b c h1 h2]
      simp
    | eq =>
      have hba : f b a = .gt := by rw [← hs a b, h1]; rfl
      have hca : f c a = .gt := (hc b c a h2) ▸ hba
      have hac : f a c = .lt := by rw [← hs c a, hca]; rfl
      rw [hac]
      simp

theorem lawful_total {α : Type} {f : α → α → Ordering} (hf : LawfulOCmp f) :
    ∀ a b, f a b ≠ .gt ∨ f b a ≠ .gt := by
  intro a b
  cases h : f a b with
  | gt =>
    right
    rw [← hf.1 a b, h]
    decide
  | lt => left; simp
  | eq => left; simp

theorem compareNatListValues_spec : ∀ l1 l2 : List Nat,
    ordOfInt (compareNatListValues l1 l2) = natListValuesCompare l1 l2 := by
  intro l1
  induction l1 with
  | nil => intro l2; cases l2 <;> rfl
  | cons a as ih =>
    intro l2
    cases l2 with
    | nil => rfl
    | cons b bs =>
      show ordOfInt (if ((a : Int) - (b : Int)) ≠ 0 then _ else compareNatListValues as bs) = _
      rw [ordOfInt_ite_chain, ordOfInt_natCast_sub, ih bs]
      rfl

theorem sortTermDictionaryEntryDefinitionsCompare_spec (v1 v2 : TermDefinition Tag) :
    ordOfInt (sortTermDictionaryEntryDefinitionsCompare v1 v2) =
      amendedDefinitionsCompare v1 v2 := by
  rw [amendedDefinitionsCompare]
  simp only [sortTermDictionaryEntryDefinitionsCompare, ordOfInt_ite_chain, ordOfInt_sub_int,
    ordOfInt_natCast_sub, compare_natCast_int, compareNatListValues_spec]
  rw [ordering_then_assoc]

/-- C7 counterexample: two definitions tied on every key except the
headword-index lists `[0]` and `[0, 1]`.  Ascending lexicographic order
puts `[0]` first, but the code compares list lengths descending first, so
it puts `[0, 1]` first and the sorted output violates the claimed order. -/
theorem C7_counterexample :
    claimDefinitionsCompare exampleTagDefinitionA exampleTagDefinitionB = .lt ∧
    sortTermDictionaryEntryDefinitionsCompare exampleTagDefinitionA exampleTagDefinitionB > 0 ∧
    sortTermDictionaryEntryDefinitions [exampleTagDefinitionA, exampleTagDefinitionB] =
      [exampleTagDefinitionB, exampleTagDefinitionA] ∧
    ¬ (sortTermDictionaryEntryDefinitions [exampleTagDefinitionA, exampleTagDefinitionB]).Pairwise
        (fun a b => claimDefinitionsCompare a b ≠ .gt) := by
  refine ⟨by decide, by decide, by decide, by decide⟩

/-- C7 (amended): the definitions comparator sorts by ascending
`frequencyOrder`, descending `dictionaryPriority`, descending `score`,
then the headword-index lists by *descending length* followed by
element-wise ascending comparison (not plain ascending lexicographic
order), then ascending `dictionaryIndex`, descending tag-score sum,
ascending original index; the sort's output is a permutation, is
pairwise-ordered under this corrected key order, and ties keep insertion
order. -/
theorem C7_amended (l : List (TermDefinition Tag)) :
    (sortTermDictionaryEntryDefinitions l).Perm l ∧
    (∀ v1 v2 : TermDefinition Tag,
      ordOfInt (sortTermDictionaryEntryDefinitionsCompare v1 v2) = amendedDefinitionsCompare v1 v2) ∧
    (sortTermDictionaryEntryDefinitions l).Pairwise
      (fun a b => amendedDefinitionsCompare a b ≠ .gt) ∧
    (∀ c : List (TermDefinition Tag),
      c.Pairwise (fun a b => amendedDefinitionsCompare a b = .eq) →
      c.Sublist l →
      c.Sublist (sortTermDictionaryEntryDefinitions l)) := by
  have hiff : ∀ a b : TermDefinition Tag,
      (sortTermDictionaryEntryDefinitionsCompare a b ≤ 0) ↔ amendedDefinitionsCompare a b ≠ .gt := by
    intro a b
    rw [← sortTermDictionaryEntryDefinitionsCompare_spec, ordOfInt_ne_gt_iff]
  refine ⟨List.perm_insertionSort _ l, sortTermDictionaryEntryDefinitionsCompare_spec, ?_, ?_⟩
  · haveI : IsTrans (TermDefinition Tag) (fun a b => sortTermDictionaryEntryDefinitionsCompare a b ≤ 0) := by
      refine ⟨fun a b c h1 h2 => ?_⟩
      rw [hiff] at h1 h2 ⊢
      exact lawful_ne_gt_trans amendedDefinitionsCompare_lawful a b c h1 h2
    haveI : IsTotal (TermDefinition Tag) (fun a b => sortTermDictionaryEntryDefinitionsCompare a b ≤ 0) := by
      refine ⟨fun a b => ?_⟩
      rcases lawful_total amendedDefinitionsCompare_lawful a b with h | h
      · exact Or.inl ((hiff a b).mpr h)
      · exact Or.inr ((hiff b a).mpr h)
    have hs := List.sorted_insertionSort
      (fun a b : TermDefinition Tag => sortTermDictionaryEntryDefinitionsCompare a b ≤ 0) l
    exact hs.imp (fun h => (hiff _ _).mp h)
  · intro c hc hsub
    apply List.sublist_insertionSort ?_ hsub
    refine hc.imp ?_
    intro a b hab
    show sortTermDictionaryEntryDefinitionsCompare a b ≤ 0
    rw [hiff, hab]
    simp

/-- C7 witness: the amended statement applied to the two concrete
definitions, with the stability conjunct discharged on a one-element tie
class. -/
theorem C7_witness :
    (sortTermDictionaryEntryDefinitions [exampleTagDefinitionA, exampleTagDefinitionB]).Perm
      [exampleTagDefinitionA, exampleTagDefinitionB] ∧
    [exampleTagDefinitionA].Sublist
      (sortTermDictionaryEntryDefinitions [exampleTagDefinitionA, exampleTagDefinitionB]) :=
  ⟨(C7_amended [exampleTagDefinitionA, exampleTagDefinitionB]).1,
   (C7_amended [exampleTagDefinitionA, exampleTagDefinitionB]).2.2.2 [exampleTagDefinitionA]
     (List.pairwise_singleton _ _) (by decide)⟩

/-! ## C10: simple mode -/

theorem clearTagList_eq_nil {τ : Type} (tags : List τ) : clearTagList tags = [] := by
  rw [clearTagList]
  by_cases h : tags = []
  · subst h
    rfl
  · rw [if_neg (by simp [List.length_eq_zero, h])]

theorem clearTermTagsEntry_allEmpty {τ : Type} (e : TermDictionaryEntry τ) :
    allTermTagsEmpty (clearTermTagsEntry e) := by
  refine ⟨?_, ?_, ?_⟩
  · intro hw hhw
    rw [clearTermTagsEntry] at hhw
    simp only [List.mem_map] at hhw
    obtain ⟨hw0, _, rfl⟩ := hhw
    exact clearTagList_eq_nil hw0.tags
  · intro df hdf
    rw [clearTermTagsEntry] at hdf
    simp only [List.mem_map] at hdf
    obtain ⟨df0, _, rfl⟩ := hdf
    exact clearTagList_eq_nil df0.tags
  · intro p hp
    rw [clearTermTagsEntry] at hp
    simp only [List.mem_map] at hp
    obtain ⟨p0, _, rfl⟩ := hp
    constructor
    · intro pitch hpitch
      simp only [List.mem_map] at hpitch
      obtain ⟨pitch0, _, rfl⟩ := hpitch
      exact clearTagList_eq_nil pitch0.tags
    · intro pt hpt
      simp only [List.mem_map] at hpt
      obtain ⟨pt0, _, rfl⟩ := hpt
      exact clearTagList_eq_nil pt0.tags

theorem restrictToSortDictionary_keys (enabledDictionaryMap : List (String × DictionaryInfo)) (sortDictionary : String) :
    (restrictToSortDictionary enabledDictionaryMap sortDictionary).map Prod.fst ⊆ [sortDictionary] := by
  rw [restrictToSortDictionary]
  by_cases h : ((enabledDictionaryMap.find? (fun p => p.1 == sortDictionary)).isSome) = true
  · rw [show [sortDictionary].filter
        (fun key => (enabledDictionaryMap.find? (fun p => p.1 == key)).isSome) = [sortDictionary] from by
      simp [List.filter, h]]
    cases hf : (enabledDictionaryMap.find? (fun p => p.1 == sortDictionary)).map Prod.snd with
    | none =>
      rw [List.foldl_cons, hf, List.foldl_nil]
      simp
    | some info =>
      rw [List.foldl_cons, hf, List.foldl_nil]
      simp
  · rw [show [sortDictionary].filter
        (fun key => (enabledDictionaryMap.find? (fun p => p.1 == key)).isSome) = [] from by
      simp only [List.filter]
      rw [show ((enabledDictionaryMap.find? (fun p => p.1 == sortDictionary)).isSome) = false from
        Bool.eq_false_iff.mpr h]]
    simp

/-- C10 (confirmed): in `simple` mode every tag list on headwords,
definitions, pitches and phonetic transcriptions of the returned entries
is empty (whatever entries the term-meta pass produced, since
`_clearTermTags` runs after it), no tag-meta lookup is issued, and the
only term-meta lookup is for the sort-frequency dictionary when one is
set — with no sort dictionary no lookup is issued at all. -/
theorem C10_simpleMode (τ : Type) (sortFrequencyDictionary : Option String)
    (enabledDictionaryMap : List (String × DictionaryInfo))
    (addTermMeta : List (String × DictionaryInfo) → List (TermDictionaryEntry τ) → List (TermDictionaryEntry τ))
    (expandTermTags : List (TermDictionaryEntry τ) → List (TermDictionaryEntry τ))
    (dictionaryEntries : List (TermDictionaryEntry τ)) :
    (∀ e ∈ (findTermsMetaPhase "simple" sortFrequencyDictionary enabledDictionaryMap addTermMeta expandTermTags dictionaryEntries).1,
      allTermTagsEmpty e) ∧
    DatabaseRequest.tagMeta ∉
      (findTermsMetaPhase "simple" sortFrequencyDictionary enabledDictionaryMap addTermMeta expandTermTags dictionaryEntries).2 ∧
    (∀ ds, DatabaseRequest.termMeta ds ∈
        (findTermsMetaPhase "simple" sortFrequencyDictionary enabledDictionaryMap addTermMeta expandTermTags dictionaryEntries).2 →
      ∃ d, sortFrequencyDictionary = some d ∧ ds ⊆ [d]) ∧
    (sortFrequencyDictionary = none →
      (findTermsMetaPhase "simple" sortFrequencyDictionary enabledDictionaryMap addTermMeta expandTermTags dictionaryEntries).2 = []) := by
  cases sortFrequencyDictionary with
  | none =>
    refine ⟨?_, ?_, ?_, fun _ => rfl⟩
    · intro e he
      rw [show (findTermsMetaPhase "simple" none enabledDictionaryMap addTermMeta expandTermTags dictionaryEntries).1 =
          clearTermTags dictionaryEntries from rfl] at he
      rw [clearTermTags, List.mem_map] at he
      obtain ⟨e0, _, rfl⟩ := he
      exact clearTermTagsEntry_allEmpty e0
    · intro hmem
      simp [findTermsMetaPhase] at hmem
    · intro ds hmem
      simp [findTermsMetaPhase] at hmem
  | some sortDictionary =>
    refine ⟨?_, ?_, ?_, fun hc => Option.noConfusion hc⟩
    · intro e he
      rw [show (findTermsMetaPhase "simple" (some sortDictionary) enabledDictionaryMap addTermMeta expandTermTags dictionaryEntries).1 =
          clearTermTags (addTermMeta (restrictToSortDictionary enabledDictionaryMap sortDictionary) dictionaryEntries) from rfl] at he
      rw [clearTermTags, List.mem_map] at he
      obtain ⟨e0, _, rfl⟩ := he
      exact clearTermTagsEntry_allEmpty e0
    · intro hmem
      rw [show (findTermsMetaPhase "simple" (some sortDictionary) enabledDictionaryMap addTermMeta expandTermTags dictionaryEntries).2 =
          [DatabaseRequest.termMeta ((restrictToSortDictionary enabledDictionaryMap sortDictionary).map Prod.fst)] from rfl] at hmem
      simp at hmem
    · intro ds hmem
      rw [show (findTermsMetaPhase "simple" (some sortDictionary) enabledDictionaryMap addTermMeta expandTermTags dictionaryEntries).2 =
          [DatabaseRequest.termMeta ((restrictToSortDictionary enabledDictionaryMap sortDictionary).map Prod.fst)] from rfl] at hmem
      rw [List.mem_singleton] at hmem
      refine ⟨sortDictionary, rfl, ?_⟩
      rw [show ds = (restrictToSortDictionary enabledDictionaryMap sortDictionary).map Prod.fst from by
        injection hmem]
      exact restrictToSortDictionary_keys enabledDictionaryMap sortDictionary

/-- C10 witness: the simple-mode guarantees applied at a concrete
configuration with an enabled sort-frequency dictionary `"F"`. -/
theorem C10_witness :
    allTermTagsEmpty (clearTermTagsEntry exampleFrequencyEntry) ∧
    DatabaseRequest.tagMeta ∉
      (findTermsMetaPhase "simple" (some "F") [("F", ⟨0, 0, false⟩)]
        (fun _ es => es) id [exampleFrequencyEntry]).2 ∧
    (∃ d, (some "F" : Option String) = some d ∧ (["F"] : List String) ⊆ [d]) :=
  ⟨(C10_simpleMode TagGroup (some "F") [("F", ⟨0, 0, false⟩)]
      (fun _ es => es) id [exampleFrequencyEntry]).1
      (clearTermTagsEntry exampleFrequencyEntry) (by decide),
   (C10_simpleMode TagGroup (some "F") [("F", ⟨0, 0, false⟩)]
      (fun _ es => es) id [exampleFrequencyEntry]).2.1,
   (C10_simpleMode TagGroup (some "F") [("F", ⟨0, 0, false⟩)]
      (fun _ es => es) id [exampleFrequencyEntry]).2.2.1 ["F"] (by decide)⟩

end Yezichak
